/-
Verification of the real-time room-messaging core of the comm4 repository.

Two implementations of the WebSocket chat broker exist in the source:
  * the standalone server `server/websocket/server.ts` (class WebSocketChatServer),
    embedded below in namespace `Comm4.Server`;
  * the HTTP-route stub `src/app/api/ws/route.ts`, embedded in namespace
    `Comm4.Route` (its GET handler only points clients at the standalone server,
    but its exported handlers carry the message-validation / typing-timer /
    history-truncation logic).

JavaScript `Map`s are modelled as association lists with first-occurrence
lookup and replace; `Set`s of ids as insertion-ordered duplicate-free lists.
Timestamps (`Date.now()`) are `Nat` parameters; `uuidv4()` results are `String`
parameters; a pending `setTimeout` is modelled by its scheduled fire time.
-/
import Mathlib

set_option autoImplicit false

namespace Comm4

/-! ### Association-map helpers (JavaScript `Map` semantics) -/

/-- First-occurrence lookup, `Map.get`. -/
def mfind {V : Type} (m : List (String × V)) (k : String) : Option V :=
  match m with
  | [] => none
  | (k', v) :: rest => if k' = k then some v else mfind rest k

/-- `Map.set`: replace the entry if the key is present, else append. -/
def mset {V : Type} (m : List (String × V)) (k : String) (v : V) : List (String × V) :=
  match m with
  | [] => [(k, v)]
  | (k', v') :: rest => if k' = k then (k', v) :: rest else (k', v') :: mset rest k v

/-- `Map.delete`: remove every entry with the key (maps built by the
operations never hold a duplicate key, so this agrees with removing one). -/
def mdel {V : Type} (m : List (String × V)) (k : String) : List (String × V) :=
  m.filter (fun p => p.1 ≠ k)

/-- JavaScript truthiness of an optional string: `undefined` and `""` are falsy. -/
def truthy : Option String → Prop
  | none => False
  | some s => s ≠ ""

instance truthy.decide : (o : Option String) → Decidable (truthy o)
  | none => isFalse (fun h => h)
  | some s => inferInstanceAs (Decidable (s ≠ ""))

/-- Transport-level effects emitted by a handler: a JSON frame written to one
client's socket, or a forced socket termination. -/
inductive Ev (M : Type) where
  | send (clientId : String) (msg : M)
  | terminate (clientId : String)
deriving Repr, DecidableEq

end Comm4

namespace Comm4.Server

/-! ### Standalone WebSocket server (`server/websocket/server.ts`) -/

open Comm4

/-- `ClientConnection` (server.ts lines 195-203).  `wsOpen` models
`ws.readyState === WebSocket.OPEN`. -/
structure ClientConnection where
  wsOpen : Bool
  userId : Option String
  username : Option String
  roomId : Option String
  lastPing : Nat
  isAlive : Bool
deriving Repr, DecidableEq

/-- `Room` (server.ts lines 205-210); `clients` is the insertion-ordered
member `Set`. -/
structure Room where
  id : String
  clients : List String
  createdAt : Nat
  lastActivity : Nat
deriving Repr, DecidableEq

/-- Parsed `data` object of an inbound frame. -/
structure InData where
  content : Option String
  dtype : Option String
  encrypted : Option Bool
  typing : Option Bool
deriving Repr, DecidableEq

/-- Inbound `WebSocketMessage` (server.ts lines 212-220). -/
structure WSMessage where
  type : String
  roomId : Option String
  userId : Option String
  username : Option String
  data : Option InData
  id : Option String
deriving Repr, DecidableEq

/-- A participant entry produced by `getRoomParticipants`. -/
structure ParticipantInfo where
  id : String
  username : String
  isOnline : Bool
deriving Repr, DecidableEq

/-- Outbound frames written by the standalone server. -/
inductive ServerMsg where
  | userJoined (roomId userId username : String) (timestamp : Nat)
  | roomJoined (roomId : String) (participants : List ParticipantInfo)
  | message (roomId : String) (userId username : Option String)
      (dataId content : String) (senderId senderName : Option String)
      (dtype : String) (encrypted : Bool) (timestamp : Nat)
  | typing (roomId : String) (userId username : Option String) (typing : Bool) (timestamp : Nat)
  | pong (timestamp : Nat)
  | userLeft (roomId userId username : String) (timestamp : Nat)
  | errorMsg (message : String)
deriving Repr, DecidableEq

abbrev Event := Ev ServerMsg

/-- Whole-server state: the `clients` and `rooms` maps plus the
`messageRateLimiter`'s sliding-window `attempts` map
(`lib/config/environment.ts` lines 368-392, instantiated 10 per 60 s). -/
structure ServerState where
  clients : List (String × ClientConnection)
  rooms : List (String × Room)
  rateAttempts : List (String × List Nat)
deriving Repr, DecidableEq

/-- `sendToClient` (server.ts lines 508-517): silently dropped unless the
client is registered and its socket is open. -/
def sendToClient (st : ServerState) (clientId : String) (msg : ServerMsg) : List Event :=
  match mfind st.clients clientId with
  | none => []
  | some c => if c.wsOpen then [.send clientId msg] else []

/-- `broadcastToRoom` (server.ts lines 519-528). -/
def broadcastToRoom (st : ServerState) (roomId : String) (msg : ServerMsg)
    (excludeClientId : Option String) : List Event :=
  match mfind st.rooms roomId with
  | none => []
  | some room =>
    room.clients.flatMap fun cid =>
      if excludeClientId = some cid then [] else sendToClient st cid msg

/-- `getRoomParticipants` (server.ts lines 530-547). -/
def getRoomParticipants (st : ServerState) (roomId : String) : List ParticipantInfo :=
  match mfind st.rooms roomId with
  | none => []
  | some room =>
    room.clients.filterMap fun cid =>
      match mfind st.clients cid with
      | some c =>
        match c.userId, c.username with
        | some u, some n => if u ≠ "" ∧ n ≠ "" then some ⟨u, n, true⟩ else none
        | _, _ => none
      | none => none

/-- `Set.add` on the member list: no-op when present, else append. -/
def setAdd (l : List String) (x : String) : List String :=
  if x ∈ l then l else l ++ [x]

/-- `leaveRoom` (server.ts lines 480-506): drop the member, notify the
remaining members (only when the leaver had bound an identity), delete the
room the moment it empties, and clear the client's `roomId`. -/
def leaveRoom (st : ServerState) (clientId roomId : String) (now : Nat) :
    ServerState × List Event :=
  match mfind st.clients clientId, mfind st.rooms roomId with
  | some client, some room =>
    let room' : Room := { room with clients := room.clients.filter (fun c => c ≠ clientId) }
    let st1 : ServerState := { st with rooms := mset st.rooms roomId room' }
    let evs :=
      match client.userId, client.username with
      | some u, some n =>
        if u ≠ "" ∧ n ≠ "" then
          broadcastToRoom st1 roomId (.userLeft roomId u n now) (some clientId)
        else []
      | _, _ => []
    let st2 : ServerState :=
      if room'.clients = [] then { st1 with rooms := mdel st1.rooms roomId } else st1
    let st3 : ServerState :=
      { st2 with clients := mset st2.clients clientId ({ client with roomId := none }) }
    (st3, evs)
  | _, _ => (st, [])

/-- `handleJoinRoom` (server.ts lines 352-399).  `leaveRoom` only clears the
client's `roomId`, which the join overwrites, so rebinding the identity
fields on the pre-state record is exact. -/
def handleJoinRoom (st : ServerState) (clientId : String) (msg : WSMessage) (now : Nat) :
    ServerState × List Event :=
  match mfind st.clients clientId with
  | none => (st, [])
  | some client =>
    match msg.roomId, msg.userId, msg.username with
    | some rId, some uId, some uName =>
      if rId ≠ "" ∧ uId ≠ "" ∧ uName ≠ "" then
        let res1 :=
          match client.roomId with
          | some old => if old ≠ "" then leaveRoom st clientId old now else (st, [])
          | none => (st, [])
        let st1 := res1.1
        let client' : ClientConnection :=
          { client with userId := some uId, username := some uName, roomId := some rId }
        let st2 : ServerState := { st1 with clients := mset st1.clients clientId client' }
        let st3 : ServerState :=
          match mfind st2.rooms rId with
          | some _ => st2
          | none =>
            let fresh : Room := { id := rId, clients := [], createdAt := now, lastActivity := now }
            { st2 with rooms := mset st2.rooms rId fresh }
        let st4 : ServerState :=
          match mfind st3.rooms rId with
          | some room =>
            let room2 : Room :=
              { room with clients := setAdd room.clients clientId, lastActivity := now }
            { st3 with rooms := mset st3.rooms rId room2 }
          | none => st3
        let evs2 := broadcastToRoom st4 rId (.userJoined rId uId uName now) (some clientId)
        let evs3 := sendToClient st4 clientId (.roomJoined rId (getRoomParticipants st4 rId))
        (st4, res1.2 ++ evs2 ++ evs3)
      else (st, [])
    | _, _, _ => (st, [])

/-- `handleChatMessage` (server.ts lines 401-431): no content validation
beyond truthiness; stamps id (`message.id || uuidv4()` — `freshId` stands for
the uuid), bumps the room's `lastActivity`, broadcasts to the whole room with
no exclusion. -/
def handleChatMessage (st : ServerState) (clientId : String) (msg : WSMessage)
    (now : Nat) (freshId : String) : ServerState × List Event :=
  match mfind st.clients clientId with
  | none => (st, [])
  | some client =>
    match client.roomId, msg.data with
    | some rId, some d =>
      match d.content with
      | some content =>
        if rId ≠ "" ∧ content ≠ "" then
          match mfind st.rooms rId with
          | none => (st, [])
          | some room =>
            let st1 : ServerState :=
              { st with rooms := mset st.rooms rId ({ room with lastActivity := now }) }
            let dataId := match msg.id with
              | some i => if i = "" then freshId else i
              | none => freshId
            let dtype := match d.dtype with
              | some t => if t = "" then "text" else t
              | none => "text"
            let chatMsg : ServerMsg :=
              .message rId client.userId client.username dataId content
                client.userId client.username dtype ((d.encrypted).getD false) now
            (st1, broadcastToRoom st1 rId chatMsg none)
        else (st, [])
      | none => (st, [])
    | _, _ => (st, [])

/-- `handleTyping` (server.ts lines 433-449): pure relay, excluding the
sender; the standalone server keeps no typing state and no auto-stop timer. -/
def handleTyping (st : ServerState) (clientId : String) (msg : WSMessage) (now : Nat) :
    ServerState × List Event :=
  match mfind st.clients clientId with
  | none => (st, [])
  | some client =>
    match client.roomId with
    | some rId =>
      if rId ≠ "" then
        match mfind st.rooms rId with
        | none => (st, [])
        | some _ =>
          let t := match msg.data with
            | some d => (d.typing).getD false
            | none => false
          (st, broadcastToRoom st rId
            (.typing rId client.userId client.username t now) (some clientId))
      else (st, [])
    | none => (st, [])

/-- `handlePing` (server.ts lines 451-463). -/
def handlePing (st : ServerState) (clientId : String) (now : Nat) :
    ServerState × List Event :=
  match mfind st.clients clientId with
  | none => (st, [])
  | some client =>
    let client' : ClientConnection := { client with lastPing := now, isAlive := true }
    let st1 : ServerState := { st with clients := mset st.clients clientId client' }
    (st1, sendToClient st1 clientId (.pong now))

/-- `handleDisconnect` (server.ts lines 465-478). -/
def handleDisconnect (st : ServerState) (clientId : String) (now : Nat) :
    ServerState × List Event :=
  match mfind st.clients clientId with
  | none => (st, [])
  | some client =>
    let res1 :=
      match client.roomId with
      | some r => if r ≠ "" then leaveRoom st clientId r now else (st, [])
      | none => (st, [])
    ({ res1.1 with clients := mdel res1.1.clients clientId }, res1.2)

/-- `RateLimiter.isAllowed` (lib/config/environment.ts lines 376-393),
returning the decision and the updated `attempts` map. -/
def isAllowed (attempts : List (String × List Nat)) (maxAttempts windowMs : Nat)
    (identifier : String) (now : Nat) : Bool × List (String × List Nat) :=
  let userAttempts := (mfind attempts identifier).getD []
  let validAttempts := userAttempts.filter (fun t => now - t < windowMs)
  if validAttempts.length ≥ maxAttempts then (false, attempts)
  else (true, mset attempts identifier (validAttempts ++ [now]))

/-- A raw inbound frame: either it JSON-parses to a `WSMessage` or it is
malformed (the `catch` branch of `handleMessage`). -/
inductive RawFrame where
  | malformed
  | frame (msg : WSMessage)
deriving Repr, DecidableEq

/-- `handleMessage` (server.ts lines 304-350): rate-limit per
`clientId:type` key with the global `messageRateLimiter` (10 per 60000 ms),
then dispatch. -/
def handleMessage (st : ServerState) (clientId : String) (raw : RawFrame)
    (now : Nat) (freshId : String) : ServerState × List Event :=
  match mfind st.clients clientId with
  | none => (st, [])
  | some _ =>
    match raw with
    | .malformed => (st, sendToClient st clientId (.errorMsg "Invalid message format"))
    | .frame msg =>
      let res := isAllowed st.rateAttempts 10 60000 (clientId ++ ":" ++ msg.type) now
      let st1 : ServerState := { st with rateAttempts := res.2 }
      if res.1 = false then
        (st1, sendToClient st1 clientId (.errorMsg "Rate limit exceeded"))
      else
        match msg.type with
        | "join_room" => handleJoinRoom st1 clientId msg now
        | "message" => handleChatMessage st1 clientId msg now freshId
        | "typing" => handleTyping st1 clientId msg now
        | "ping" => handlePing st1 clientId now
        | _ => (st1, [])

/-- One tick of `startHeartbeat` (server.ts lines 549-565): clients whose
`isAlive` flag was not refreshed since the previous tick are terminated and
disconnected; the rest are marked `isAlive = false` and pinged. -/
def heartbeatStep (now : Nat) (acc : ServerState × List Event) (clientId : String) :
    ServerState × List Event :=
  match mfind acc.1.clients clientId with
  | none => acc
  | some client =>
    if client.isAlive = false then
      let res := handleDisconnect acc.1 clientId now
      (res.1, acc.2 ++ [.terminate clientId] ++ res.2)
    else
      ({ acc.1 with clients := mset acc.1.clients clientId ({ client with isAlive := false }) },
       acc.2)

def heartbeatTick (st : ServerState) (now : Nat) : ServerState × List Event :=
  (st.clients.map Prod.fst).foldl (heartbeatStep now) (st, [])

/-- Room half of one `startCleanup` tick (server.ts lines 572-578): delete
every room idle for more than one hour — membership is not consulted. -/
def cleanupRooms (st : ServerState) (now : Nat) : ServerState :=
  { st with rooms := st.rooms.filter (fun p => ¬ (now - p.2.lastActivity > 3600000)) }

/-- Client half of one `startCleanup` tick (server.ts lines 580-586):
disconnect every client silent for more than 60000 ms. -/
def cleanupClientsStep (now : Nat) (acc : ServerState × List Event) (clientId : String) :
    ServerState × List Event :=
  match mfind acc.1.clients clientId with
  | none => acc
  | some client =>
    if now - client.lastPing > 60000 then
      let res := handleDisconnect acc.1 clientId now
      (res.1, acc.2 ++ res.2)
    else acc

/-- One full `startCleanup` tick (server.ts lines 567-589): rooms first,
then clients. -/
def cleanupSweep (st : ServerState) (now : Nat) : ServerState × List Event :=
  let st1 := cleanupRooms st now
  (st1.clients.map Prod.fst).foldl (cleanupClientsStep now) (st1, [])

end Comm4.Server

namespace Comm4.Route

/-! ### HTTP-route stub (`src/app/api/ws/route.ts`) -/

open Comm4

/-- A stored connection (route.ts lines 8-14).  Note the record has **no
`id` field**; `joinedAt` is kept for fidelity. -/
structure RConnection where
  wsOpen : Bool
  userId : String
  username : String
  roomId : String
  joinedAt : Nat
deriving Repr, DecidableEq

/-- A `userTyping` entry (route.ts line 17); the pending `setTimeout` handle
is modelled by its scheduled fire time `deadline = set-time + 3000`. -/
structure TypingEntry where
  userId : String
  username : String
  roomId : String
  deadline : Nat
deriving Repr, DecidableEq

/-- A stored chat message (route.ts lines 32-41, fields the ws handlers
read and write; `imageUrl` is never touched by them and is omitted). -/
structure RMessage where
  id : String
  content : String
  senderId : String
  senderName : String
  timestamp : Nat
  mtype : String
  encrypted : Bool
deriving Repr, DecidableEq

/-- A room record (route.ts lines 20-46, restricted to the fields the ws
message handlers read: `messages`, `expiresAt`, `isActive`, `encrypted`). -/
structure RRoom where
  id : String
  messages : List RMessage
  expiresAt : Nat
  isActive : Bool
  encrypted : Bool
deriving Repr, DecidableEq

/-- The payload of an inbound `message`/`typing` frame. -/
structure RPayload where
  content : Option String
  ptype : Option String
  isTyping : Option Bool
deriving Repr, DecidableEq

/-- Outbound frames written by the route stub's handlers. -/
inductive RServerMsg where
  | message (payload : RMessage) (timestamp : Nat)
  | typing (userId username : String) (isTyping : Bool)
  | pong (timestamp : Nat)
  | errorMsg (message : String)
deriving Repr, DecidableEq

abbrev REvent := Ev RServerMsg

/-- The route module's four module-level `Map`s (route.ts lines 8-46). -/
structure RouteState where
  connections : List (String × RConnection)
  roomConnections : List (String × List String)
  userTyping : List (String × TypingEntry)
  rooms : List (String × RRoom)
deriving Repr, DecidableEq

/-- `broadcastToRoom` (route.ts lines 67-81): skips the excluded id, then
sends to each registered member whose socket is open. -/
def broadcastToRoom (st : RouteState) (roomId : String) (msg : RServerMsg)
    (excludeConnectionId : Option String) : List REvent :=
  match mfind st.roomConnections roomId with
  | none => []
  | some connIds =>
    connIds.flatMap fun connId =>
      if excludeConnectionId = some connId then []
      else
        match mfind st.connections connId with
        | some c => if c.wsOpen then [.send connId msg] else []
        | none => []

/-- The character class stripped by JavaScript `String.prototype.trim`
(ASCII subset, which is all the repository's validation paths exercise). -/
def isJsSpace (ch : Char) : Bool :=
  ch = ' ' ∨ ch = '\t' ∨ ch = '\n' ∨ ch = '\r'

/-- Kernel-computable model of `content.trim()` (Lean's own `String.trim`
is defined by well-founded recursion and does not reduce). -/
def jsTrim (s : String) : String :=
  ⟨((s.data.dropWhile isJsSpace).reverse.dropWhile isJsSpace).reverse⟩

/-- `handleChatMessage` (route.ts lines 117-183).  `connection.ws.send` on
the error paths is a direct unconditional write, modelled as an
unconditional event; `freshId` stands for `uuidv4()`.  Empty or
whitespace-only content returns silently — no error reply. -/
def handleChatMessage (st : RouteState) (connId : String) (conn : RConnection)
    (payload : RPayload) (now : Nat) (freshId : String) : RouteState × List REvent :=
  match payload.content with
  | none => (st, [])
  | some content =>
    if content = "" ∨ jsTrim content = "" then (st, [])
    else if content.length > 1000 then
      (st, [.send connId (.errorMsg "Сообщение слишком длинное")])
    else
      match mfind st.rooms conn.roomId with
      | none => (st, [.send connId (.errorMsg "Комната не найдена")])
      | some room =>
        if now > room.expiresAt ∨ room.isActive = false then
          (st, [.send connId (.errorMsg "Комната неактивна")])
        else
          let messageObj : RMessage :=
            { id := freshId, content := jsTrim content, senderId := conn.userId,
              senderName := conn.username, timestamp := now,
              mtype := (payload.ptype).getD "text", encrypted := room.encrypted }
          let msgs := room.messages ++ [messageObj]
          let msgs' := if msgs.length > 1000 then msgs.drop (msgs.length - 1000) else msgs
          let room' : RRoom := { room with messages := msgs' }
          let st1 : RouteState := { st with rooms := mset st.rooms conn.roomId room' }
          (st1, broadcastToRoom st1 conn.roomId (.message messageObj now) none)

/-- `handleTyping` (route.ts lines 186-242).  On `isTyping` truthy the
existing auto-stop timer is cancelled and replaced by one firing at
`now + 3000`, and `typing:true` is broadcast **unconditionally** — the
exclusion argument is `connection.id`, a field the stored record does not
have, i.e. `undefined`, so nobody is excluded.  On falsy `isTyping` the
timer is cancelled and `typing:false` broadcast with no exclusion. -/
def handleTyping (st : RouteState) (conn : RConnection) (payload : RPayload)
    (now : Nat) : RouteState × List REvent :=
  let typingKey := conn.roomId ++ ":" ++ conn.userId
  if (payload.isTyping).getD false then
    let entry : TypingEntry :=
      { userId := conn.userId, username := conn.username, roomId := conn.roomId,
        deadline := now + 3000 }
    let st1 : RouteState := { st with userTyping := mset st.userTyping typingKey entry }
    (st1, broadcastToRoom st1 conn.roomId (.typing conn.userId conn.username true) none)
  else
    let st1 : RouteState := { st with userTyping := mdel st.userTyping typingKey }
    (st1, broadcastToRoom st1 conn.roomId (.typing conn.userId conn.username false) none)

/-- The `setTimeout` callback of route.ts lines 199-209, firing 3000 ms
after the entry was (re)set provided no later frame cancelled or replaced
the timer: delete the entry, then broadcast `typing:false` (no exclusion).
A cancelled timer never runs, so a missing entry is a no-op. -/
def fireTypingTimeout (st : RouteState) (typingKey : String) : RouteState × List REvent :=
  match mfind st.userTyping typingKey with
  | none => (st, [])
  | some entry =>
    let st1 : RouteState := { st with userTyping := mdel st.userTyping typingKey }
    (st1, broadcastToRoom st1 entry.roomId (.typing entry.userId entry.username false) none)

end Comm4.Route


namespace Comm4

/-! ## Theorems

Library lemmas for the map model, then the claim theorems. -/

@[simp] theorem mfind_nil {V : Type} (k : String) : mfind ([] : List (String × V)) k = none := rfl

theorem mfind_cons {V : Type} (k' k : String) (v : V) (rest : List (String × V)) :
    mfind ((k', v) :: rest) k = if k' = k then some v else mfind rest k := rfl

@[simp] theorem mfind_mset_self {V : Type} (m : List (String × V)) (k : String) (v : V) :
    mfind (mset m k v) k = some v := by
  induction m with
  | nil => simp [mset, mfind]
  | cons p rest ih =>
    obtain ⟨k', v'⟩ := p
    by_cases h : k' = k
    · simp [mset, h, mfind]
    · simp [mset, h, mfind, ih]

@[simp] theorem mfind_mset_ne {V : Type} (m : List (String × V)) (k k'' : String) (v : V)
    (h : k ≠ k'') : mfind (mset m k v) k'' = mfind m k'' := by
  induction m with
  | nil => simp [mset, mfind, h]
  | cons p rest ih =>
    obtain ⟨k', v'⟩ := p
    by_cases hk : k' = k
    · subst hk
      simp [mset, mfind, h, ih]
    · simp [mset, hk, mfind, ih]

@[simp] theorem mfind_mdel_self {V : Type} (m : List (String × V)) (k : String) :
    mfind (mdel m k) k = none := by
  induction m with
  | nil => simp [mdel]
  | cons p rest ih =>
    obtain ⟨k', v'⟩ := p
    by_cases h : k' = k
    · simpa [mdel, h] using ih
    · simpa [mdel, h, mfind] using ih

@[simp] theorem mfind_mdel_ne {V : Type} (m : List (String × V)) (k k'' : String)
    (h : k ≠ k'') : mfind (mdel m k) k'' = mfind m k'' := by
  induction m with
  | nil => simp [mdel]
  | cons p rest ih =>
    obtain ⟨k', v'⟩ := p
    by_cases hk : k' = k
    · subst hk
      have hne : k' ≠ k'' := h
      simpa [mdel, mfind, hne] using ih
    · by_cases hk'' : k' = k''
      · subst hk''
        simp [mdel, mfind, List.filter_cons, Ne.symm h]
      · simpa [mdel, hk, hk'', mfind] using ih

theorem mfind_mem_keys {V : Type} {m : List (String × V)} {k : String} {v : V}
    (h : mfind m k = some v) : k ∈ m.map Prod.fst := by
  induction m with
  | nil => simp [mfind] at h
  | cons p rest ih =>
    obtain ⟨k', v'⟩ := p
    by_cases hk : k' = k
    · simp [hk]
    · simp [mfind, hk] at h
      simp [ih h]

@[simp] theorem truthy_some {s : String} : truthy (some s) ↔ s ≠ "" := Iff.rfl
@[simp] theorem truthy_none : ¬ truthy none := fun h => h

end Comm4

namespace Comm4.Server

open Comm4

theorem sendToClient_open {st : ServerState} {m : String} {cm : ClientConnection}
    (msg : ServerMsg) (h1 : mfind st.clients m = some cm) (h2 : cm.wsOpen = true) :
    sendToClient st m msg = [.send m msg] := by
  unfold sendToClient
  rw [h1]
  simp [h2]

theorem flatMap_send_none (st : ServerState) (msg : ServerMsg) (l : List String)
    (hopen : ∀ m ∈ l, ∃ cm, mfind st.clients m = some cm ∧ cm.wsOpen = true) :
    (l.flatMap fun cid =>
        if (none : Option String) = some cid then [] else sendToClient st cid msg) =
      l.map (fun m => Ev.send m msg) := by
  induction l with
  | nil => simp
  | cons x xs ih =>
    obtain ⟨cm, hcm, hcmo⟩ := hopen x (by simp)
    simp only [List.flatMap_cons, List.map_cons]
    rw [ih (fun m hm => hopen m (by simp [hm]))]
    simp [sendToClient_open msg hcm hcmo]

theorem flatMap_send_some (st : ServerState) (msg : ServerMsg) (ex : String) (l : List String)
    (hopen : ∀ m ∈ l, ∃ cm, mfind st.clients m = some cm ∧ cm.wsOpen = true) :
    (l.flatMap fun cid => if some ex = some cid then [] else sendToClient st cid msg) =
      (l.filter (fun m => m ≠ ex)).map (fun m => Ev.send m msg) := by
  induction l with
  | nil => simp
  | cons x xs ih =>
    simp only [List.flatMap_cons, List.filter_cons]
    rw [ih (fun m hm => hopen m (by simp [hm]))]
    obtain ⟨cm, hcm, hcmo⟩ := hopen x (by simp)
    by_cases hx : x = ex
    · subst hx
      simp
    · simp [hx, Ne.symm hx, sendToClient_open msg hcm hcmo]

/-- With every member registered and open, an exclusion-free broadcast sends
the frame to the full member list in order. -/
theorem broadcast_none_eq {st : ServerState} {R : String} {room : Room} (msg : ServerMsg)
    (h : mfind st.rooms R = some room)
    (hopen : ∀ m ∈ room.clients, ∃ cm, mfind st.clients m = some cm ∧ cm.wsOpen = true) :
    broadcastToRoom st R msg none = room.clients.map (fun m => Ev.send m msg) := by
  unfold broadcastToRoom
  rw [h]
  exact flatMap_send_none st msg room.clients hopen

/-- With every member registered and open, a broadcast excluding `ex` sends
the frame to exactly the members other than `ex`, in order. -/
theorem broadcast_some_eq {st : ServerState} {R : String} {room : Room} (msg : ServerMsg)
    (ex : String) (h : mfind st.rooms R = some room)
    (hopen : ∀ m ∈ room.clients, ∃ cm, mfind st.clients m = some cm ∧ cm.wsOpen = true) :
    broadcastToRoom st R msg (some ex) =
      (room.clients.filter (fun m => m ≠ ex)).map (fun m => Ev.send m msg) := by
  unfold broadcastToRoom
  rw [h]
  exact flatMap_send_some st msg ex room.clients hopen

/-- C7: a frame that fails to parse is answered with an `error` event to the
originating connection only; the server state — the registry, every room,
and the rate-limiter map — is left completely unchanged, so the connection
stays registered and stays in its room. -/
theorem claim7_malformed_frame_error_only (st : ServerState) (c : String)
    (conn : ClientConnection) (now : Nat) (freshId : String)
    (hc : mfind st.clients c = some conn) (hopen : conn.wsOpen = true) :
    handleMessage st c .malformed now freshId =
      (st, [.send c (.errorMsg "Invalid message format")]) := by
  unfold handleMessage
  rw [hc]
  simp [sendToClient_open _ hc hopen]

/-- Witness for C7 at a concrete one-client state. -/
theorem claim7_witness :
    handleMessage
        ⟨[("c1", ⟨true, some "u1", some "n1", some "r1", 0, true⟩)],
         [("r1", ⟨"r1", ["c1"], 0, 0⟩)], []⟩
        "c1" .malformed 5 "id1" =
      (⟨[("c1", ⟨true, some "u1", some "n1", some "r1", 0, true⟩)],
        [("r1", ⟨"r1", ["c1"], 0, 0⟩)], []⟩,
       [.send "c1" (.errorMsg "Invalid message format")]) :=
  claim7_malformed_frame_error_only
    ⟨[("c1", ⟨true, some "u1", some "n1", some "r1", 0, true⟩)],
     [("r1", ⟨"r1", ["c1"], 0, 0⟩)], []⟩
    "c1" ⟨true, some "u1", some "n1", some "r1", 0, true⟩ 5 "id1" (by decide) rfl

/-- C8: a `ping` frame updates the sender's `lastPing` timestamp and
`isAlive` flag, replies `pong{timestamp}` to that connection only, and
leaves every other connection's registry entry, all rooms, and the
rate-limiter map unchanged. -/
theorem claim8_ping_liveness_pong (st : ServerState) (c : String)
    (conn : ClientConnection) (now : Nat)
    (hc : mfind st.clients c = some conn) (hopen : conn.wsOpen = true) :
    mfind (handlePing st c now).1.clients c =
        some ({ conn with lastPing := now, isAlive := true }) ∧
    (∀ k, k ≠ c → mfind (handlePing st c now).1.clients k = mfind st.clients k) ∧
    (handlePing st c now).1.rooms = st.rooms ∧
    (handlePing st c now).1.rateAttempts = st.rateAttempts ∧
    (handlePing st c now).2 = [.send c (.pong now)] := by
  unfold handlePing
  rw [hc]
  refine ⟨by simp, fun k hk => by simp [mfind_mset_ne _ _ _ _ (Ne.symm hk)], rfl, rfl, ?_⟩
  have h1 : mfind (mset st.clients c ({ conn with lastPing := now, isAlive := true })) c =
      some ({ conn with lastPing := now, isAlive := true }) := mfind_mset_self _ _ _
  exact sendToClient_open _ h1 hopen

/-- Witness for C8 at a concrete two-client state. -/
theorem claim8_witness :
    mfind (handlePing
        ⟨[("c1", ⟨true, some "u1", some "n1", some "r1", 0, false⟩),
          ("c2", ⟨true, some "u2", some "n2", some "r1", 0, true⟩)],
         [("r1", ⟨"r1", ["c1", "c2"], 0, 0⟩)], []⟩ "c1" 42).1.clients "c1" =
      some ⟨true, some "u1", some "n1", some "r1", 42, true⟩ ∧
    (handlePing
        ⟨[("c1", ⟨true, some "u1", some "n1", some "r1", 0, false⟩),
          ("c2", ⟨true, some "u2", some "n2", some "r1", 0, true⟩)],
         [("r1", ⟨"r1", ["c1", "c2"], 0, 0⟩)], []⟩ "c1" 42).2 =
      [.send "c1" (.pong 42)] := by
  have h := claim8_ping_liveness_pong
    ⟨[("c1", ⟨true, some "u1", some "n1", some "r1", 0, false⟩),
      ("c2", ⟨true, some "u2", some "n2", some "r1", 0, true⟩)],
     [("r1", ⟨"r1", ["c1", "c2"], 0, 0⟩)], []⟩ "c1"
    ⟨true, some "u1", some "n1", some "r1", 0, false⟩ 42 (by decide) rfl
  exact ⟨h.1, h.2.2.2.2⟩

theorem isAllowed_denied_snd {attempts : List (String × List Nat)}
    {maxAttempts windowMs : Nat} {identifier : String} {now : Nat}
    (h : (isAllowed attempts maxAttempts windowMs identifier now).1 = false) :
    (isAllowed attempts maxAttempts windowMs identifier now).2 = attempts := by
  unfold isAllowed at h ⊢
  by_cases hge :
      (((mfind attempts identifier).getD []).filter (fun t => now - t < windowMs)).length ≥
        maxAttempts
  · simp [hge]
  · simp [hge] at h

/-- C9: when the per-`clientId:type` message rate limiter denies a parsed
frame, the server replies `error "Rate limit exceeded"` to that connection
only and nothing else happens: the whole state, the rate-limiter map
included, is returned unchanged. -/
theorem claim9_rate_limit_reject_no_effect (st : ServerState) (c : String)
    (conn : ClientConnection) (msg : WSMessage) (now : Nat) (freshId : String)
    (hc : mfind st.clients c = some conn) (hopen : conn.wsOpen = true)
    (hdeny : (isAllowed st.rateAttempts 10 60000 (c ++ ":" ++ msg.type) now).1 = false) :
    handleMessage st c (.frame msg) now freshId =
      (st, [.send c (.errorMsg "Rate limit exceeded")]) := by
  unfold handleMessage
  rw [hc]
  have hsnd := isAllowed_denied_snd hdeny
  have hst : ({ st with rateAttempts :=
      (isAllowed st.rateAttempts 10 60000 (c ++ ":" ++ msg.type) now).2 } : ServerState) = st := by
    rw [hsnd]
  simp only [hdeny, hst, if_pos rfl]
  simp [sendToClient_open _ hc hopen]

/-- Witness for C9: ten fresh attempts already recorded for `c1:message`. -/
theorem claim9_witness :
    (isAllowed [("c1:message", [0, 0, 0, 0, 0, 0, 0, 0, 0, 0])] 10 60000 "c1:message" 5).1 =
      false ∧
    handleMessage
        ⟨[("c1", ⟨true, some "u1", some "n1", some "r1", 0, true⟩)],
         [("r1", ⟨"r1", ["c1"], 0, 0⟩)],
         [("c1:message", [0, 0, 0, 0, 0, 0, 0, 0, 0, 0])]⟩
        "c1" (.frame ⟨"message", none, none, none,
          some ⟨some "hi", none, none, none⟩, none⟩) 5 "id1" =
      (⟨[("c1", ⟨true, some "u1", some "n1", some "r1", 0, true⟩)],
        [("r1", ⟨"r1", ["c1"], 0, 0⟩)],
        [("c1:message", [0, 0, 0, 0, 0, 0, 0, 0, 0, 0])]⟩,
       [.send "c1" (.errorMsg "Rate limit exceeded")]) := by
  refine ⟨by decide, ?_⟩
  exact claim9_rate_limit_reject_no_effect
    ⟨[("c1", ⟨true, some "u1", some "n1", some "r1", 0, true⟩)],
     [("r1", ⟨"r1", ["c1"], 0, 0⟩)],
     [("c1:message", [0, 0, 0, 0, 0, 0, 0, 0, 0, 0])]⟩ "c1"
    ⟨true, some "u1", some "n1", some "r1", 0, true⟩
    ⟨"message", none, none, none, some ⟨some "hi", none, none, none⟩, none⟩
    5 "id1" (by decide) rfl (by decide)

end Comm4.Server

namespace Comm4.Server

open Comm4

theorem filter_ne_of_not_mem {l : List String} {c : String} (h : c ∉ l) :
    l.filter (fun m => m ≠ c) = l := by
  induction l with
  | nil => rfl
  | cons x xs ih =>
    have hx : x ≠ c := fun hh => h (by simp [hh])
    have hxs : c ∉ xs := fun hh => h (by simp [hh])
    rw [List.filter_cons, if_pos (by simp [hx]), ih hxs]

theorem length_filter_ne_of_nodup {l : List String} {c : String}
    (hnd : l.Nodup) (hm : c ∈ l) :
    (l.filter (fun m => m ≠ c)).length = l.length - 1 := by
  induction l with
  | nil => cases hm
  | cons x xs ih =>
    rcases List.mem_cons.mp hm with h | h
    · have hnx : c ∉ xs := by
        rw [h]
        exact (List.nodup_cons.mp hnd).1
      have hxc : ¬ (decide (x ≠ c) = true) := by simp [h.symm]
      rw [List.filter_cons, if_neg hxc, filter_ne_of_not_mem hnx]
      simp
    · have hx : x ≠ c := by
        intro hh
        exact absurd (hh ▸ h) (List.nodup_cons.mp hnd).1
      have ihh := ih (List.nodup_cons.mp hnd).2 h
      have hlen : 1 ≤ xs.length := List.length_pos.mpr (List.ne_nil_of_mem h)
      rw [List.filter_cons, if_pos (by simp [hx])]
      simp only [List.length_cons, ihh]
      omega

/-- C1: with every member of the sender's room registered and open, an
accepted chat message frame is broadcast to all N members of the room,
the sender included, while a typing frame is broadcast to exactly the
other N-1 members, the sender excluded. -/
theorem claim1_broadcast_completeness
    (st : ServerState) (c R : String) (client : ClientConnection) (room : Room)
    (msg : WSMessage) (d : InData) (ct : String) (now : Nat) (freshId : String)
    (hc : mfind st.clients c = some client)
    (hcr : client.roomId = some R) (hR : R ≠ "")
    (hrm : mfind st.rooms R = some room)
    (hdata : msg.data = some d) (hct : d.content = some ct) (hct0 : ct ≠ "")
    (hopen : ∀ m ∈ room.clients, ∃ cm, mfind st.clients m = some cm ∧ cm.wsOpen = true)
    (hnodup : room.clients.Nodup) (hmem : c ∈ room.clients) :
    (handleChatMessage st c msg now freshId).2 =
        room.clients.map (fun m => Ev.send m (ServerMsg.message R client.userId client.username
          (match msg.id with | some i => if i = "" then freshId else i | none => freshId) ct
          client.userId client.username
          (match d.dtype with | some t => if t = "" then "text" else t | none => "text")
          ((d.encrypted).getD false) now)) ∧
    (handleChatMessage st c msg now freshId).2.length = room.clients.length ∧
    (handleTyping st c msg now).2 =
        (room.clients.filter (fun m => m ≠ c)).map
          (fun m => Ev.send m (ServerMsg.typing R client.userId client.username
            ((d.typing).getD false) now)) ∧
    (handleTyping st c msg now).2.length = room.clients.length - 1 := by
  have hchat : (handleChatMessage st c msg now freshId).2 =
      broadcastToRoom
        ({ st with rooms := mset st.rooms R ({ room with lastActivity := now }) })
        R (ServerMsg.message R client.userId client.username
          (match msg.id with | some i => if i = "" then freshId else i | none => freshId) ct
          client.userId client.username
          (match d.dtype with | some t => if t = "" then "text" else t | none => "text")
          ((d.encrypted).getD false) now) none := by
    unfold handleChatMessage
    simp only [hc, hcr, hdata, hct, hrm]
    rw [if_pos ⟨hR, hct0⟩]
  have htyp : (handleTyping st c msg now).2 =
      broadcastToRoom st R
        (ServerMsg.typing R client.userId client.username ((d.typing).getD false) now)
        (some c) := by
    unfold handleTyping
    simp only [hc, hcr, hrm, hdata]
    rw [if_pos hR]
  have hrm1 : mfind ({ st with rooms := mset st.rooms R ({ room with lastActivity := now }) } : ServerState).rooms R = some ({ room with lastActivity := now }) :=
    mfind_mset_self st.rooms R ({ room with lastActivity := now })
  have hchat2 := broadcast_none_eq
    (ServerMsg.message R client.userId client.username
      (match msg.id with | some i => if i = "" then freshId else i | none => freshId) ct
      client.userId client.username
      (match d.dtype with | some t => if t = "" then "text" else t | none => "text")
      ((d.encrypted).getD false) now)
    hrm1 hopen
  have htyp2 := broadcast_some_eq
    (ServerMsg.typing R client.userId client.username ((d.typing).getD false) now) c hrm hopen
  refine ⟨?_, ?_, ?_, ?_⟩
  · rw [hchat, hchat2]
  · rw [hchat, hchat2]
    simp
  · rw [htyp, htyp2]
  · rw [htyp, htyp2]
    rw [List.length_map, length_filter_ne_of_nodup hnodup hmem]

/-- Witness for C1: two open members, `c1` the sender; the frame's data
object carries both a content and a typing flag so the one theorem
application covers both conclusions. -/
theorem claim1_witness :
    (handleChatMessage
        ⟨[("c1", ⟨true, some "u1", some "n1", some "r1", 0, true⟩),
          ("c2", ⟨true, some "u2", some "n2", some "r1", 0, true⟩)],
         [("r1", ⟨"r1", ["c1", "c2"], 0, 0⟩)], []⟩
        "c1" ⟨"message", none, none, none, some ⟨some "hi", none, none, some true⟩, none⟩
        7 "id1").2.length = 2 ∧
    (handleTyping
        ⟨[("c1", ⟨true, some "u1", some "n1", some "r1", 0, true⟩),
          ("c2", ⟨true, some "u2", some "n2", some "r1", 0, true⟩)],
         [("r1", ⟨"r1", ["c1", "c2"], 0, 0⟩)], []⟩
        "c1" ⟨"message", none, none, none, some ⟨some "hi", none, none, some true⟩, none⟩
        7).2.length = 1 := by
  have h := claim1_broadcast_completeness
    ⟨[("c1", ⟨true, some "u1", some "n1", some "r1", 0, true⟩),
      ("c2", ⟨true, some "u2", some "n2", some "r1", 0, true⟩)],
     [("r1", ⟨"r1", ["c1", "c2"], 0, 0⟩)], []⟩
    "c1" "r1" ⟨true, some "u1", some "n1", some "r1", 0, true⟩ ⟨"r1", ["c1", "c2"], 0, 0⟩
    ⟨"message", none, none, none, some ⟨some "hi", none, none, some true⟩, none⟩
    ⟨some "hi", none, none, some true⟩ "hi" 7 "id1"
    rfl rfl (by decide) rfl rfl rfl (by decide)
    (by
      intro m hm
      simp only [List.mem_cons, List.not_mem_nil, or_false] at hm
      rcases hm with h | h
      · subst h
        exact ⟨⟨true, some "u1", some "n1", some "r1", 0, true⟩, rfl, rfl⟩
      · subst h
        exact ⟨⟨true, some "u2", some "n2", some "r1", 0, true⟩, rfl, rfl⟩)
    (by decide) (by decide)
  refine ⟨?_, ?_⟩
  · rw [h.2.1]
    rfl
  · rw [h.2.2.2]
    rfl

theorem mset_mset_self {V : Type} (m : List (String × V)) (k : String) (v w : V) :
    mset (mset m k v) k w = mset m k w := by
  induction m with
  | nil => simp [mset]
  | cons p rest ih =>
    obtain ⟨k', v'⟩ := p
    by_cases h : k' = k
    · simp [mset, h]
    · simp [mset, h, ih]

theorem setAdd_mem_self (l : List String) (x : String) : x ∈ setAdd l x := by
  unfold setAdd
  by_cases h : x ∈ l
  · simp [h]
  · simp [h]

theorem setAdd_mem_of_mem {l : List String} {x y : String} (h : y ∈ l) : y ∈ setAdd l x := by
  unfold setAdd
  by_cases hx : x ∈ l
  · simpa [hx]
  · simp [hx, h]

/-- A registered, open member other than the excluded one receives every
broadcast to its room. -/
theorem mem_broadcast {st : ServerState} {R : String} {room : Room} {m : String}
    {cm : ClientConnection} (msg : ServerMsg) (ex : Option String)
    (h : mfind st.rooms R = some room) (hm : m ∈ room.clients) (hne : ex ≠ some m)
    (hcm : mfind st.clients m = some cm) (hcmo : cm.wsOpen = true) :
    Ev.send m msg ∈ broadcastToRoom st R msg ex := by
  unfold broadcastToRoom
  rw [h]
  refine List.mem_flatMap.mpr ⟨m, hm, ?_⟩
  rw [if_neg hne, sendToClient_open msg hcm hcmo]
  simp

theorem leaveRoom_fst_clients {st : ServerState} {c A : String} {client : ClientConnection}
    {roomA : Room} (now : Nat)
    (hc : mfind st.clients c = some client) (hrm : mfind st.rooms A = some roomA) :
    (leaveRoom st c A now).1.clients = mset st.clients c ({ client with roomId := none }) := by
  unfold leaveRoom
  simp only [hc, hrm]
  split <;> rfl

theorem leaveRoom_fst_rooms {st : ServerState} {c A : String} {client : ClientConnection}
    {roomA : Room} (now : Nat)
    (hc : mfind st.clients c = some client) (hrm : mfind st.rooms A = some roomA) :
    (leaveRoom st c A now).1.rooms =
      (if roomA.clients.filter (fun x => x ≠ c) = [] then mdel (mset st.rooms A ({ roomA with clients := roomA.clients.filter (fun x => x ≠ c) })) A else mset st.rooms A ({ roomA with clients := roomA.clients.filter (fun x => x ≠ c) })) := by
  unfold leaveRoom
  simp only [hc, hrm]
  split <;> rfl

theorem leaveRoom_fst_rate {st : ServerState} {c A : String} {client : ClientConnection}
    {roomA : Room} (now : Nat)
    (hc : mfind st.clients c = some client) (hrm : mfind st.rooms A = some roomA) :
    (leaveRoom st c A now).1.rateAttempts = st.rateAttempts := by
  unfold leaveRoom
  simp only [hc, hrm]
  split <;> rfl

theorem leaveRoom_snd {st : ServerState} {c A : String} {client : ClientConnection}
    {roomA : Room} {u0 n0 : String} (now : Nat)
    (hc : mfind st.clients c = some client) (hrm : mfind st.rooms A = some roomA)
    (hid : client.userId = some u0) (hn : client.username = some n0)
    (hu0 : u0 ≠ "") (hn0 : n0 ≠ "") :
    (leaveRoom st c A now).2 =
      broadcastToRoom ({ st with rooms := mset st.rooms A ({ roomA with clients := roomA.clients.filter (fun x => x ≠ c) }) }) A (.userLeft A u0 n0 now) (some c) := by
  unfold leaveRoom
  simp only [hc, hrm]
  simp only [hid, hn]
  rw [if_pos ⟨hu0, hn0⟩]

/-- When the leaver has no bound identity, an implicit leave emits nothing. -/
theorem leaveRoom_snd_silent {st : ServerState} {c A : String} {client : ClientConnection}
    {roomA : Room} (now : Nat)
    (hc : mfind st.clients c = some client) (hrm : mfind st.rooms A = some roomA)
    (hid : ¬ (truthy client.userId ∧ truthy client.username)) :
    (leaveRoom st c A now).2 = [] := by
  unfold leaveRoom
  simp only [hc, hrm]
  cases hu : client.userId with
  | none => simp [hu]
  | some u =>
    cases hn : client.username with
    | none => simp [hu, hn]
    | some n =>
      have hcond : ¬ (u ≠ "" ∧ n ≠ "") := by
        intro hx
        exact hid ⟨by rw [hu]; exact hx.1, by rw [hn]; exact hx.2⟩
      simp only [hu, hn]
      simp [hcond]

/-- C4: a connection currently in room A that processes a `join_room` for
room B first leaves A — A's membership no longer contains it and A's
remaining open members get `user_left` before any join event — and ends up
a member of B and of no other room. -/
theorem claim4_join_implicit_leave
    (st : ServerState) (c A B uId uName u0 n0 m : String)
    (client cm : ClientConnection) (roomA : Room) (msg : WSMessage) (now : Nat)
    (hc : mfind st.clients c = some client)
    (hcr : client.roomId = some A) (hA : A ≠ "")
    (hrmA : mfind st.rooms A = some roomA)
    (hid : client.userId = some u0) (hn : client.username = some n0)
    (hu0 : u0 ≠ "") (hn0 : n0 ≠ "")
    (hmr : msg.roomId = some B) (hmu : msg.userId = some uId) (hmn : msg.username = some uName)
    (hB : B ≠ "") (huId : uId ≠ "") (huN : uName ≠ "")
    (hAB : B ≠ A)
    (honly : ∀ r room', mfind st.rooms r = some room' → r ≠ A → c ∉ room'.clients)
    (hm : m ∈ roomA.clients) (hmc : m ≠ c)
    (hcm : mfind st.clients m = some cm) (hcmo : cm.wsOpen = true) :
    (∀ roomA', mfind (handleJoinRoom st c msg now).1.rooms A = some roomA' →
      c ∉ roomA'.clients) ∧
    mfind (handleJoinRoom st c msg now).1.clients c =
      some ({ client with userId := some uId, username := some uName, roomId := some B }) ∧
    (∃ roomB', mfind (handleJoinRoom st c msg now).1.rooms B = some roomB' ∧
      c ∈ roomB'.clients) ∧
    (∀ r room', mfind (handleJoinRoom st c msg now).1.rooms r = some room' →
      c ∈ room'.clients → r = B) ∧
    (∃ tail, (handleJoinRoom st c msg now).2 = (leaveRoom st c A now).2 ++ tail ∧
      Ev.send m (ServerMsg.userLeft A u0 n0 now) ∈ (leaveRoom st c A now).2) := by
  have hLc := leaveRoom_fst_clients now hc hrmA
  have hLr := leaveRoom_fst_rooms now hc hrmA
  have hLs := leaveRoom_snd now hc hrmA hid hn hu0 hn0
  have hF4 : mfind (leaveRoom st c A now).1.rooms B = mfind st.rooms B := by
    rw [hLr]
    by_cases hemp : roomA.clients.filter (fun x => x ≠ c) = []
    · rw [if_pos hemp, mfind_mdel_ne _ _ _ (Ne.symm hAB),
        mfind_mset_ne _ _ _ _ (Ne.symm hAB)]
    · rw [if_neg hemp, mfind_mset_ne _ _ _ _ (Ne.symm hAB)]
  have hF5 : mfind (leaveRoom st c A now).1.rooms A = none ∨
      mfind (leaveRoom st c A now).1.rooms A =
        some ({ roomA with clients := roomA.clients.filter (fun x => x ≠ c) }) := by
    rw [hLr]
    by_cases hemp : roomA.clients.filter (fun x => x ≠ c) = []
    · left
      rw [if_pos hemp]
      exact mfind_mdel_self _ _
    · right
      rw [if_neg hemp]
      exact mfind_mset_self _ _ _
  have hF6 : ∀ r, r ≠ A → mfind (leaveRoom st c A now).1.rooms r = mfind st.rooms r := by
    intro r hr
    rw [hLr]
    by_cases hemp : roomA.clients.filter (fun x => x ≠ c) = []
    · rw [if_pos hemp, mfind_mdel_ne _ _ _ (Ne.symm hr), mfind_mset_ne _ _ _ _ (Ne.symm hr)]
    · rw [if_neg hemp, mfind_mset_ne _ _ _ _ (Ne.symm hr)]
  have hnofilter : c ∉ roomA.clients.filter (fun x => x ≠ c) := by
    intro hmem
    have := (List.mem_filter.mp hmem).2
    simp at this
  have hmemleft : Ev.send m (ServerMsg.userLeft A u0 n0 now) ∈ (leaveRoom st c A now).2 := by
    rw [hLs]
    refine mem_broadcast _ (some c)
      (mfind_mset_self st.rooms A ({ roomA with clients := roomA.clients.filter (fun x => x ≠ c) }))
      ?_ (by simpa using Ne.symm hmc) hcm hcmo
    exact List.mem_filter.mpr ⟨hm, by simp [hmc]⟩
  cases hB2 : mfind st.rooms B with
  | some roomB =>
    have hB4 : mfind (leaveRoom st c A now).1.rooms B = some roomB := by rw [hF4, hB2]
    have hres : handleJoinRoom st c msg now =
        (let stJ : ServerState := { (leaveRoom st c A now).1 with clients := mset (leaveRoom st c A now).1.clients c ({ client with userId := some uId, username := some uName, roomId := some B }) }
         let st4 : ServerState := { stJ with rooms := mset stJ.rooms B ({ roomB with clients := setAdd roomB.clients c, lastActivity := now }) }
         (st4, (leaveRoom st c A now).2 ++
           broadcastToRoom st4 B (.userJoined B uId uName now) (some c) ++
           sendToClient st4 c (.roomJoined B (getRoomParticipants st4 B)))) := by
      unfold handleJoinRoom
      simp only [hc, hmr, hmu, hmn]
      rw [if_pos ⟨hB, huId, huN⟩]
      simp only [hcr]
      rw [if_pos hA]
      simp only [hB4]
    rw [hres]
    simp only []
    refine ⟨?_, ?_, ?_, ?_, ?_⟩
    · intro roomA' hra
      rw [mfind_mset_ne _ _ _ _ hAB] at hra
      rcases hF5 with h5 | h5
      · rw [h5] at hra
        cases hra
      · rw [h5] at hra
        cases hra
        exact hnofilter
    · rw [hLc, mset_mset_self, mfind_mset_self]
    · refine ⟨_, mfind_mset_self _ _ _, setAdd_mem_self _ _⟩
    · intro r room' hr hcr'
      by_cases hrB : r = B
      · exact hrB
      · exfalso
        rw [mfind_mset_ne _ _ _ _ (fun h => hrB h.symm)] at hr
        by_cases hrA : r = A
        · subst hrA
          rcases hF5 with h5 | h5
          · rw [h5] at hr
            cases hr
          · rw [h5] at hr
            cases hr
            exact hnofilter hcr'
        · rw [hF6 r hrA] at hr
          exact honly r room' hr hrA hcr'
    · exact ⟨_, by rw [List.append_assoc], hmemleft⟩
  | none =>
    have hB4 : mfind (leaveRoom st c A now).1.rooms B = none := by rw [hF4, hB2]
    have hres : handleJoinRoom st c msg now =
        (let stJ : ServerState := { (leaveRoom st c A now).1 with clients := mset (leaveRoom st c A now).1.clients c ({ client with userId := some uId, username := some uName, roomId := some B }) }
         let st4 : ServerState := { stJ with rooms := mset (mset stJ.rooms B ({ id := B, clients := [], createdAt := now, lastActivity := now })) B ({ id := B, clients := setAdd [] c, createdAt := now, lastActivity := now }) }
         (st4, (leaveRoom st c A now).2 ++
           broadcastToRoom st4 B (.userJoined B uId uName now) (some c) ++
           sendToClient st4 c (.roomJoined B (getRoomParticipants st4 B)))) := by
      unfold handleJoinRoom
      simp only [hc, hmr, hmu, hmn]
      rw [if_pos ⟨hB, huId, huN⟩]
      simp only [hcr]
      rw [if_pos hA]
      simp only [hB4, mfind_mset_self]
    rw [hres]
    simp only []
    refine ⟨?_, ?_, ?_, ?_, ?_⟩
    · intro roomA' hra
      rw [mset_mset_self, mfind_mset_ne _ _ _ _ hAB] at hra
      rcases hF5 with h5 | h5
      · rw [h5] at hra
        cases hra
      · rw [h5] at hra
        cases hra
        exact hnofilter
    · rw [hLc, mset_mset_self, mfind_mset_self]
    · exact ⟨_, by rw [mset_mset_self]; exact mfind_mset_self _ _ _, setAdd_mem_self [] c⟩
    · intro r room' hr hcr'
      by_cases hrB : r = B
      · exact hrB
      · exfalso
        rw [mset_mset_self, mfind_mset_ne _ _ _ _ (fun h => hrB h.symm)] at hr
        by_cases hrA : r = A
        · subst hrA
          rcases hF5 with h5 | h5
          · rw [h5] at hr
            cases hr
          · rw [h5] at hr
            cases hr
            exact hnofilter hcr'
        · rw [hF6 r hrA] at hr
          exact honly r room' hr hrA hcr'
    · exact ⟨_, by rw [List.append_assoc], hmemleft⟩

/-- Witness for C4: `c1` moves from room `rA` (shared with `c2`) to a fresh
room `rB`; `c2` receives `user_left` from the implicit leave. -/
theorem claim4_witness :
    mfind (handleJoinRoom
        ⟨[("c1", ⟨true, some "u1", some "n1", some "rA", 0, true⟩),
          ("c2", ⟨true, some "u2", some "n2", some "rA", 0, true⟩)],
         [("rA", ⟨"rA", ["c1", "c2"], 0, 0⟩)], []⟩
        "c1" ⟨"join_room", some "rB", some "u1", some "n1", none, none⟩ 5).1.clients "c1" =
      some ⟨true, some "u1", some "n1", some "rB", 0, true⟩ ∧
    (∃ roomB', mfind (handleJoinRoom
        ⟨[("c1", ⟨true, some "u1", some "n1", some "rA", 0, true⟩),
          ("c2", ⟨true, some "u2", some "n2", some "rA", 0, true⟩)],
         [("rA", ⟨"rA", ["c1", "c2"], 0, 0⟩)], []⟩
        "c1" ⟨"join_room", some "rB", some "u1", some "n1", none, none⟩ 5).1.rooms "rB" =
        some roomB' ∧ "c1" ∈ roomB'.clients) ∧
    Ev.send "c2" (ServerMsg.userLeft "rA" "u1" "n1" 5) ∈
      (leaveRoom
        ⟨[("c1", ⟨true, some "u1", some "n1", some "rA", 0, true⟩),
          ("c2", ⟨true, some "u2", some "n2", some "rA", 0, true⟩)],
         [("rA", ⟨"rA", ["c1", "c2"], 0, 0⟩)], []⟩ "c1" "rA" 5).2 := by
  have h := claim4_join_implicit_leave
    ⟨[("c1", ⟨true, some "u1", some "n1", some "rA", 0, true⟩),
      ("c2", ⟨true, some "u2", some "n2", some "rA", 0, true⟩)],
     [("rA", ⟨"rA", ["c1", "c2"], 0, 0⟩)], []⟩
    "c1" "rA" "rB" "u1" "n1" "u1" "n1" "c2"
    ⟨true, some "u1", some "n1", some "rA", 0, true⟩
    ⟨true, some "u2", some "n2", some "rA", 0, true⟩
    ⟨"rA", ["c1", "c2"], 0, 0⟩
    ⟨"join_room", some "rB", some "u1", some "n1", none, none⟩ 5
    rfl rfl (by decide) rfl rfl rfl (by decide) (by decide)
    rfl rfl rfl (by decide) (by decide) (by decide) (by decide)
    (by
      intro r room' hr hne
      by_cases hra : "rA" = r
      · exact absurd hra.symm hne
      · simp [mfind, hra] at hr)
    (by decide) (by decide) rfl rfl
  obtain ⟨t, ht1, ht2⟩ := h.2.2.2.2
  exact ⟨h.2.1, h.2.2.1, ht2⟩

theorem mfind_eq_none {V : Type} {m : List (String × V)} {k : String}
    (h : k ∉ m.map Prod.fst) : mfind m k = none := by
  induction m with
  | nil => rfl
  | cons p rest ih =>
    obtain ⟨k', v'⟩ := p
    have hk : k' ≠ k := by
      intro hh
      exact h (by simp [hh])
    rw [mfind_cons, if_neg hk]
    exact ih (fun hh => h (by simp [hh]))

theorem keys_filter_subset {V : Type} (P : String × V → Bool) (m : List (String × V)) :
    ((m.filter P).map Prod.fst) ⊆ m.map Prod.fst := by
  intro k hk
  simp only [List.mem_map] at hk ⊢
  obtain ⟨p, hp, he⟩ := hk
  exact ⟨p, (List.mem_filter.mp hp).1, he⟩

theorem mfind_filter {V : Type} (P : String × V → Bool) (m : List (String × V)) (k : String)
    (hnd : (m.map Prod.fst).Nodup) :
    mfind (m.filter P) k =
      (match mfind m k with
       | none => none
       | some v => if P (k, v) then some v else none) := by
  induction m with
  | nil => rfl
  | cons p rest ih =>
    obtain ⟨k', v'⟩ := p
    have hnd' : (rest.map Prod.fst).Nodup := (List.nodup_cons.mp (by simpa using hnd)).2
    by_cases hk : k' = k
    · subst hk
      have hout : k' ∉ rest.map Prod.fst := (List.nodup_cons.mp (by simpa using hnd)).1
      have hnone : mfind (List.filter P rest) k' = none :=
        mfind_eq_none (fun hh => hout (keys_filter_subset P rest hh))
      by_cases hp : P (k', v') = true
      · simp [List.filter_cons, hp, mfind_cons]
      · simp [List.filter_cons, hp, mfind_cons, hnone]
    · by_cases hp : P (k', v') = true
      · simp [List.filter_cons, hp, mfind_cons, hk, ih hnd']
      · simp [List.filter_cons, hp, mfind_cons, hk, ih hnd']

theorem setAdd_nil (x : String) : setAdd [] x = [x] := by
  simp [setAdd]

/-- Counterexample to C6 as stated: the idle sweep deletes a room that
still has a live member — membership is never consulted.  Room `r1` has
member `c1` (itself fresh enough to survive the client pass), yet the sweep
removes `r1` because its last activity is over an hour old. -/
theorem claim6_counterexample :
    "c1" ∈ (⟨"r1", ["c1"], 0, 0⟩ : Room).clients ∧
    mfind (cleanupSweep
      ⟨[("c1", ⟨true, some "u1", some "n1", some "r1", 4000000, true⟩)],
       [("r1", ⟨"r1", ["c1"], 0, 0⟩)], []⟩ 4000001).1.rooms "r1" = none := by
  constructor
  · decide
  · decide

/-- C6 (amended): the idle-room half of the cleanup sweep deletes exactly
the rooms whose last activity is more than one hour old — regardless of
membership; rooms with recent activity keep their entry unchanged; and a
later `join_room` with a deleted room's id creates a fresh room entry whose
only member is the joiner. -/
theorem claim6_idle_sweep_amended
    (st : ServerState) (now : Nat) (r : String) (room : Room)
    (hnd : (st.rooms.map Prod.fst).Nodup)
    (hr : mfind st.rooms r = some room) :
    (now - room.lastActivity > 3600000 → mfind (cleanupRooms st now).rooms r = none) ∧
    (¬ (now - room.lastActivity > 3600000) → mfind (cleanupRooms st now).rooms r = some room) ∧
    (∀ (st2 : ServerState) (c uId uName : String) (client : ClientConnection) (msg : WSMessage),
      mfind st2.clients c = some client → client.roomId = none →
      msg.roomId = some r → msg.userId = some uId → msg.username = some uName →
      r ≠ "" → uId ≠ "" → uName ≠ "" →
      mfind st2.rooms r = none →
      mfind (handleJoinRoom st2 c msg now).1.rooms r =
        some ({ id := r, clients := [c], createdAt := now, lastActivity := now })) := by
  have hfil := mfind_filter (fun p => ¬ (now - p.2.lastActivity > 3600000)) st.rooms r hnd
  refine ⟨?_, ?_, ?_⟩
  · intro hstale
    unfold cleanupRooms
    simp only []
    rw [hfil, hr]
    simp [hstale]
  · intro hfresh
    unfold cleanupRooms
    simp only []
    rw [hfil, hr]
    simp [hfresh]
  · intro st2 c uId uName client msg hc2 hcr2 hmr hmu hmn hrne huId huN hnone
    unfold handleJoinRoom
    simp only [hc2, hmr, hmu, hmn]
    rw [if_pos ⟨hrne, huId, huN⟩]
    simp only [hcr2, hnone, mfind_mset_self, mset_mset_self, setAdd_nil]

/-- Witness for the amended C6: a stale room is deleted and a later join
with its id creates a fresh single-member entry. -/
theorem claim6_witness :
    ((4000001 : Nat) - 0 > 3600000) ∧
    mfind (cleanupRooms ⟨[], [("r1", ⟨"r1", ["c1"], 0, 0⟩)], []⟩ 4000001).rooms "r1" = none ∧
    mfind (handleJoinRoom ⟨[("c1", ⟨true, none, none, none, 0, true⟩)], [], []⟩ "c1"
        ⟨"join_room", some "r1", some "u1", some "n1", none, none⟩ 4000001).1.rooms "r1" =
      some ⟨"r1", ["c1"], 4000001, 4000001⟩ := by
  have h := claim6_idle_sweep_amended ⟨[], [("r1", ⟨"r1", ["c1"], 0, 0⟩)], []⟩ 4000001 "r1"
    ⟨"r1", ["c1"], 0, 0⟩ (by decide) rfl
  exact ⟨by decide, h.1 (by decide),
    h.2.2 ⟨[("c1", ⟨true, none, none, none, 0, true⟩)], [], []⟩ "c1" "u1" "n1"
      ⟨true, none, none, none, 0, true⟩ ⟨"join_room", some "r1", some "u1", some "n1", none, none⟩
      rfl rfl rfl rfl rfl (by decide) (by decide) (by decide) rfl⟩

theorem leaveRoom_noclient {st : ServerState} {k r : String} {now : Nat}
    (h : mfind st.clients k = none) : leaveRoom st k r now = (st, []) := by
  unfold leaveRoom
  rcases hr : mfind st.rooms r with _ | rm <;> simp [h, hr]

theorem leaveRoom_noroom {st : ServerState} {k r : String} {now : Nat}
    (h : mfind st.rooms r = none) : leaveRoom st k r now = (st, []) := by
  unfold leaveRoom
  rcases hc : mfind st.clients k with _ | cl <;> simp [h, hc]

theorem leaveRoom_clients_ne {st : ServerState} {k r x : String} {now : Nat} (hx : x ≠ k) :
    mfind (leaveRoom st k r now).1.clients x = mfind st.clients x := by
  rcases hcl : mfind st.clients k with _ | cl
  · rw [leaveRoom_noclient hcl]
  · rcases hrm2 : mfind st.rooms r with _ | rm
    · rw [leaveRoom_noroom hrm2]
    · rw [leaveRoom_fst_clients now hcl hrm2, mfind_mset_ne _ _ _ _ (Ne.symm hx)]

theorem leaveRoom_rooms_bwd {st : ServerState} {k r r' : String} {now : Nat}
    {rm' : Room} {y : String}
    (h : mfind (leaveRoom st k r now).1.rooms r' = some rm') (hy : y ∈ rm'.clients) :
    ∃ rm, mfind st.rooms r' = some rm ∧ y ∈ rm.clients := by
  rcases hcl : mfind st.clients k with _ | cl
  · rw [leaveRoom_noclient hcl] at h
    exact ⟨rm', h, hy⟩
  · rcases hrm2 : mfind st.rooms r with _ | rm
    · rw [leaveRoom_noroom hrm2] at h
      exact ⟨rm', h, hy⟩
    · rw [leaveRoom_fst_rooms now hcl hrm2] at h
      by_cases hemp : rm.clients.filter (fun x => x ≠ k) = []
      · rw [if_pos hemp] at h
        by_cases hrr : r' = r
        · subst hrr
          rw [mfind_mdel_self] at h
          cases h
        · rw [mfind_mdel_ne _ _ _ (Ne.symm hrr), mfind_mset_ne _ _ _ _ (Ne.symm hrr)] at h
          exact ⟨rm', h, hy⟩
      · rw [if_neg hemp] at h
        by_cases hrr : r' = r
        · subst hrr
          rw [mfind_mset_self] at h
          cases h
          exact ⟨rm, hrm2, (List.mem_filter.mp hy).1⟩
        · rw [mfind_mset_ne _ _ _ _ (Ne.symm hrr)] at h
          exact ⟨rm', h, hy⟩

theorem leaveRoom_rooms_fwd {st : ServerState} {k r r' : String} {now : Nat}
    {rm : Room} {m : String}
    (hq : mfind st.rooms r' = some rm) (hm : m ∈ rm.clients) (hmk : m ≠ k) :
    ∃ rm', mfind (leaveRoom st k r now).1.rooms r' = some rm' ∧ m ∈ rm'.clients ∧
      ∀ y, y ∈ rm'.clients → y ∈ rm.clients := by
  rcases hcl : mfind st.clients k with _ | cl
  · rw [leaveRoom_noclient hcl]
    exact ⟨rm, hq, hm, fun y hy => hy⟩
  · rcases hrm2 : mfind st.rooms r with _ | rmr
    · rw [leaveRoom_noroom hrm2]
      exact ⟨rm, hq, hm, fun y hy => hy⟩
    · by_cases hrr : r' = r
      · subst hrr
        rw [hq] at hrm2
        cases hrm2
        have hmf : m ∈ rm.clients.filter (fun x => x ≠ k) :=
          List.mem_filter.mpr ⟨hm, by simp [hmk]⟩
        have hemp : ¬ (rm.clients.filter (fun x => x ≠ k) = []) := by
          intro he
          rw [he] at hmf
          cases hmf
        rw [leaveRoom_fst_rooms now hcl hq, if_neg hemp]
        exact ⟨_, mfind_mset_self _ _ _, hmf, fun y hy => (List.mem_filter.mp hy).1⟩
      · rw [leaveRoom_fst_rooms now hcl hrm2]
        by_cases hemp : rmr.clients.filter (fun x => x ≠ k) = []
        · rw [if_pos hemp, mfind_mdel_ne _ _ _ (Ne.symm hrr),
            mfind_mset_ne _ _ _ _ (Ne.symm hrr)]
          exact ⟨rm, hq, hm, fun y hy => hy⟩
        · rw [if_neg hemp, mfind_mset_ne _ _ _ _ (Ne.symm hrr)]
          exact ⟨rm, hq, hm, fun y hy => hy⟩

theorem handleDisconnect_clients_ne {s : ServerState} {k x : String} {now : Nat}
    (hx : x ≠ k) :
    mfind (handleDisconnect s k now).1.clients x = mfind s.clients x := by
  unfold handleDisconnect
  rcases hcl : mfind s.clients k with _ | cl
  · simp only [hcl]
  · simp only [hcl]
    rcases hcr2 : cl.roomId with _ | r
    · simp only [hcr2]
      exact mfind_mdel_ne _ _ _ (Ne.symm hx)
    · simp only [hcr2]
      by_cases hr : r ≠ ""
      · rw [if_pos hr, mfind_mdel_ne _ _ _ (Ne.symm hx), leaveRoom_clients_ne hx]
      · rw [if_neg hr]
        exact mfind_mdel_ne _ _ _ (Ne.symm hx)

theorem handleDisconnect_clients_self {s : ServerState} {k : String} {now : Nat} :
    mfind (handleDisconnect s k now).1.clients k = none := by
  unfold handleDisconnect
  rcases hcl : mfind s.clients k with _ | cl
  · simp only [hcl]
  · simp only [hcl]
    rcases hcr2 : cl.roomId with _ | r
    · simp only [hcr2]
      exact mfind_mdel_self _ _
    · simp only [hcr2]
      by_cases hr : r ≠ ""
      · rw [if_pos hr]
        exact mfind_mdel_self _ _
      · rw [if_neg hr]
        exact mfind_mdel_self _ _

theorem handleDisconnect_rooms_bwd {s : ServerState} {k r' : String} {now : Nat}
    {rm' : Room} {y : String}
    (h : mfind (handleDisconnect s k now).1.rooms r' = some rm') (hy : y ∈ rm'.clients) :
    ∃ rm, mfind s.rooms r' = some rm ∧ y ∈ rm.clients := by
  unfold handleDisconnect at h
  rcases hcl : mfind s.clients k with _ | cl
  · simp only [hcl] at h
    exact ⟨rm', h, hy⟩
  · simp only [hcl] at h
    rcases hcr2 : cl.roomId with _ | r
    · simp only [hcr2] at h
      exact ⟨rm', h, hy⟩
    · simp only [hcr2] at h
      by_cases hr : r ≠ ""
      · rw [if_pos hr] at h
        exact leaveRoom_rooms_bwd h hy
      · rw [if_neg hr] at h
        exact ⟨rm', h, hy⟩

theorem handleDisconnect_rooms_fwd {s : ServerState} {k r' : String} {now : Nat}
    {rm : Room} {m : String}
    (hq : mfind s.rooms r' = some rm) (hm : m ∈ rm.clients) (hmk : m ≠ k) :
    ∃ rm', mfind (handleDisconnect s k now).1.rooms r' = some rm' ∧ m ∈ rm'.clients ∧
      ∀ y, y ∈ rm'.clients → y ∈ rm.clients := by
  unfold handleDisconnect
  rcases hcl : mfind s.clients k with _ | cl
  · simp only [hcl]
    exact ⟨rm, hq, hm, fun y hy => hy⟩
  · simp only [hcl]
    rcases hcr2 : cl.roomId with _ | r
    · simp only [hcr2]
      exact ⟨rm, hq, hm, fun y hy => hy⟩
    · simp only [hcr2]
      by_cases hr : r ≠ ""
      · rw [if_pos hr]
        exact leaveRoom_rooms_fwd hq hm hmk
      · rw [if_neg hr]
        exact ⟨rm, hq, hm, fun y hy => hy⟩

theorem handleDisconnect_snd {s : ServerState} {k r : String} {now : Nat}
    {cl : ClientConnection} (hcl : mfind s.clients k = some cl)
    (hcr2 : cl.roomId = some r) (hr : r ≠ "") :
    (handleDisconnect s k now).2 = (leaveRoom s k r now).2 := by
  unfold handleDisconnect
  simp only [hcl, hcr2]
  rw [if_pos hr]

theorem handleDisconnect_room_clears {s : ServerState} {k r : String} {now : Nat}
    {cl : ClientConnection} (hcl : mfind s.clients k = some cl)
    (hcr2 : cl.roomId = some r) (hr : r ≠ "") :
    ∀ rm', mfind (handleDisconnect s k now).1.rooms r = some rm' → k ∉ rm'.clients := by
  intro rm' h
  unfold handleDisconnect at h
  simp only [hcl, hcr2] at h
  rw [if_pos hr] at h
  rcases hrm2 : mfind s.rooms r with _ | rmr
  · rw [leaveRoom_noroom hrm2] at h
    rw [hrm2] at h
    cases h
  · rw [leaveRoom_fst_rooms now hcl hrm2] at h
    by_cases hemp : rmr.clients.filter (fun x => x ≠ k) = []
    · rw [if_pos hemp, mfind_mdel_self] at h
      cases h
    · rw [if_neg hemp, mfind_mset_self] at h
      cases h
      intro hmem
      have := (List.mem_filter.mp hmem).2
      simp at this

theorem step_snd_mono (now : Nat) (acc : ServerState × List Event) (k : String) :
    ∃ t, (cleanupClientsStep now acc k).2 = acc.2 ++ t := by
  unfold cleanupClientsStep
  rcases hcl : mfind acc.1.clients k with _ | cl
  · simp only [hcl]
    exact ⟨[], (List.append_nil _).symm⟩
  · simp only [hcl]
    by_cases hs : now - cl.lastPing > 60000
    · rw [if_pos hs]
      exact ⟨_, rfl⟩
    · rw [if_neg hs]
      exact ⟨[], (List.append_nil _).symm⟩

theorem fold_snd_mono (now : Nat) :
    ∀ (l : List String) (acc : ServerState × List Event),
      ∃ t, (List.foldl (cleanupClientsStep now) acc l).2 = acc.2 ++ t := by
  intro l
  induction l with
  | nil =>
    intro acc
    exact ⟨[], (List.append_nil _).symm⟩
  | cons k l' ih =>
    intro acc
    obtain ⟨t0, h0⟩ := step_snd_mono now acc k
    obtain ⟨t1, h1⟩ := ih (cleanupClientsStep now acc k)
    refine ⟨t0 ++ t1, ?_⟩
    rw [List.foldl_cons, h1, h0, List.append_assoc]

theorem stepJ (now : Nat) (R c : String) (acc : ServerState × List Event) (k : String)
    (h1 : mfind acc.1.clients c = none)
    (h2 : ∀ rm', mfind acc.1.rooms R = some rm' → c ∉ rm'.clients) :
    mfind (cleanupClientsStep now acc k).1.clients c = none ∧
    (∀ rm', mfind (cleanupClientsStep now acc k).1.rooms R = some rm' → c ∉ rm'.clients) := by
  unfold cleanupClientsStep
  rcases hcl : mfind acc.1.clients k with _ | cl
  · simp only [hcl]
    exact ⟨h1, h2⟩
  · simp only [hcl]
    by_cases hs : now - cl.lastPing > 60000
    · rw [if_pos hs]
      have hck : c ≠ k := by
        intro he
        rw [he, hcl] at h1
        cases h1
      constructor
      · rw [handleDisconnect_clients_ne hck]
        exact h1
      · intro rm' h hcmem
        obtain ⟨rm, hrm, hmem⟩ := handleDisconnect_rooms_bwd h hcmem
        exact h2 rm hrm hmem
    · rw [if_neg hs]
      exact ⟨h1, h2⟩

theorem foldJ (now : Nat) (R c : String) :
    ∀ (l : List String) (acc : ServerState × List Event),
      mfind acc.1.clients c = none →
      (∀ rm', mfind acc.1.rooms R = some rm' → c ∉ rm'.clients) →
      mfind (List.foldl (cleanupClientsStep now) acc l).1.clients c = none ∧
      (∀ rm', mfind (List.foldl (cleanupClientsStep now) acc l).1.rooms R = some rm' →
        c ∉ rm'.clients) := by
  intro l
  induction l with
  | nil =>
    intro acc h1 h2
    exact ⟨h1, h2⟩
  | cons k l' ih =>
    intro acc h1 h2
    rw [List.foldl_cons]
    have hstep := stepJ now R c acc k h1 h2
    exact ih (cleanupClientsStep now acc k) hstep.1 hstep.2

theorem sweepAux (now : Nat) (c R u n m : String) (cm : ClientConnection) :
    ∀ (l : List String) (acc : ServerState × List Event) (cc : ClientConnection),
      c ∈ l → m ≠ c →
      mfind acc.1.clients c = some cc →
      now - cc.lastPing > 60000 → cc.roomId = some R → R ≠ "" →
      cc.userId = some u → cc.username = some n → u ≠ "" → n ≠ "" →
      mfind acc.1.clients m = some cm → cm.wsOpen = true → ¬ (now - cm.lastPing > 60000) →
      (∃ rm, mfind acc.1.rooms R = some rm ∧ m ∈ rm.clients) →
      mfind (List.foldl (cleanupClientsStep now) acc l).1.clients c = none ∧
      (∀ rm', mfind (List.foldl (cleanupClientsStep now) acc l).1.rooms R = some rm' →
        c ∉ rm'.clients) ∧
      Ev.send m (ServerMsg.userLeft R u n now) ∈
        (List.foldl (cleanupClientsStep now) acc l).2 := by
  intro l
  induction l with
  | nil =>
    intro acc cc hmem
    exact absurd hmem (List.not_mem_nil c)
  | cons k l' ih =>
    intro acc cc hmem hmc hc hstale hcr hR hid hnm hu hn0 hcm hcmo hmfresh hroom
    rw [List.foldl_cons]
    by_cases hkc : k = c
    · subst hkc
      obtain ⟨rm, hrm, hmrm⟩ := hroom
      have hstep : cleanupClientsStep now acc k =
          ((handleDisconnect acc.1 k now).1, acc.2 ++ (handleDisconnect acc.1 k now).2) := by
        unfold cleanupClientsStep
        simp only [hc]
        rw [if_pos hstale]
      rw [hstep]
      have hJ1 : mfind (handleDisconnect acc.1 k now).1.clients k = none :=
        handleDisconnect_clients_self
      have hJ2 : ∀ rm', mfind (handleDisconnect acc.1 k now).1.rooms R = some rm' →
          k ∉ rm'.clients := handleDisconnect_room_clears hc hcr hR
      have hJ := foldJ now R k l'
        ((handleDisconnect acc.1 k now).1, acc.2 ++ (handleDisconnect acc.1 k now).2) hJ1 hJ2
      refine ⟨hJ.1, hJ.2, ?_⟩
      have hsnd : (handleDisconnect acc.1 k now).2 = (leaveRoom acc.1 k R now).2 :=
        handleDisconnect_snd hc hcr hR
      have hmemev : Ev.send m (ServerMsg.userLeft R u n now) ∈ (leaveRoom acc.1 k R now).2 := by
        rw [leaveRoom_snd now hc hrm hid hnm hu hn0]
        refine mem_broadcast _ (some k) (mfind_mset_self _ _ _)
          (List.mem_filter.mpr ⟨hmrm, by simp [hmc]⟩) ?_ hcm hcmo
        intro h
        exact hmc (Option.some.inj h).symm
      obtain ⟨t, ht⟩ := fold_snd_mono now l'
        ((handleDisconnect acc.1 k now).1, acc.2 ++ (handleDisconnect acc.1 k now).2)
      rw [ht]
      refine List.mem_append.mpr (Or.inl ?_)
      refine List.mem_append.mpr (Or.inr ?_)
      rw [hsnd]
      exact hmemev
    · have hck : c ≠ k := fun h => hkc h.symm
      have hmem' : c ∈ l' := by
        rcases List.mem_cons.mp hmem with h | h
        · exact absurd h.symm hkc
        · exact h
      have hpresC : mfind (cleanupClientsStep now acc k).1.clients c = some cc := by
        unfold cleanupClientsStep
        rcases hcl2 : mfind acc.1.clients k with _ | clk
        · simp only [hcl2]
          exact hc
        · simp only [hcl2]
          by_cases hs : now - clk.lastPing > 60000
          · rw [if_pos hs, handleDisconnect_clients_ne hck]
            exact hc
          · rw [if_neg hs]
            exact hc
      have hpresM : mfind (cleanupClientsStep now acc k).1.clients m = some cm := by
        unfold cleanupClientsStep
        rcases hcl2 : mfind acc.1.clients k with _ | clk
        · simp only [hcl2]
          exact hcm
        · simp only [hcl2]
          by_cases hs : now - clk.lastPing > 60000
          · have hmk : m ≠ k := by
              intro he
              rw [he, hcl2] at hcm
              cases hcm
              exact hmfresh hs
            rw [if_pos hs, handleDisconnect_clients_ne hmk]
            exact hcm
          · rw [if_neg hs]
            exact hcm
      have hpresR : ∃ rm, mfind (cleanupClientsStep now acc k).1.rooms R = some rm ∧
          m ∈ rm.clients := by
        obtain ⟨rm, hrm, hmrm⟩ := hroom
        unfold cleanupClientsStep
        rcases hcl2 : mfind acc.1.clients k with _ | clk
        · simp only [hcl2]
          exact ⟨rm, hrm, hmrm⟩
        · simp only [hcl2]
          by_cases hs : now - clk.lastPing > 60000
          · have hmk : m ≠ k := by
              intro he
              rw [he, hcl2] at hcm
              cases hcm
              exact hmfresh hs
            rw [if_pos hs]
            obtain ⟨rm', h1, h2, _⟩ := handleDisconnect_rooms_fwd hrm hmrm hmk
            exact ⟨rm', h1, h2⟩
          · rw [if_neg hs]
            exact ⟨rm, hrm, hmrm⟩
      exact ih (cleanupClientsStep now acc k) cc hmem' hmc hpresC hstale hcr hR hid hnm
        hu hn0 hpresM hcmo hmfresh hpresR

/-- C5: a connection silent for longer than the 60 s threshold when the
cleanup sweep runs is evicted — removed from the registry and from its
room's membership — and each remaining fresh, open member of its room
receives `user_left` for it, although it never sent an explicit leave. -/
theorem claim5_sweep_evicts_silent_connection
    (st : ServerState) (now : Nat) (c R u n m : String)
    (cc cm : ClientConnection) (room : Room)
    (hndr : (st.rooms.map Prod.fst).Nodup)
    (hc : mfind st.clients c = some cc)
    (hstale : now - cc.lastPing > 60000)
    (hcr : cc.roomId = some R) (hR : R ≠ "")
    (hid : cc.userId = some u) (hn : cc.username = some n) (hu : u ≠ "") (hn0 : n ≠ "")
    (hrm : mfind st.rooms R = some room)
    (hroomfresh : ¬ (now - room.lastActivity > 3600000))
    (hm : m ∈ room.clients) (hmc : m ≠ c)
    (hcm : mfind st.clients m = some cm) (hcmo : cm.wsOpen = true)
    (hmfresh : ¬ (now - cm.lastPing > 60000)) :
    mfind (cleanupSweep st now).1.clients c = none ∧
    (∀ room', mfind (cleanupSweep st now).1.rooms R = some room' → c ∉ room'.clients) ∧
    Ev.send m (ServerMsg.userLeft R u n now) ∈ (cleanupSweep st now).2 := by
  have hkeys : c ∈ (cleanupRooms st now).clients.map Prod.fst := mfind_mem_keys hc
  have hrmf : mfind (cleanupRooms st now).rooms R = some room := by
    unfold cleanupRooms
    rw [mfind_filter _ _ _ hndr, hrm]
    simp [hroomfresh]
  exact sweepAux now c R u n m cm ((cleanupRooms st now).clients.map Prod.fst)
    (cleanupRooms st now, []) cc hkeys hmc hc hstale hcr hR hid hn hu hn0 hcm hcmo hmfresh
    ⟨room, hrmf, hm⟩

/-- Witness for C5: `c1` last ponged at 0, sweep runs at 70001; fresh open
member `c2` of room `r1` receives `user_left`. -/
theorem claim5_witness :
    mfind (cleanupSweep
        ⟨[("c1", ⟨true, some "u1", some "n1", some "r1", 0, true⟩),
          ("c2", ⟨true, some "u2", some "n2", some "r1", 70000, true⟩)],
         [("r1", ⟨"r1", ["c1", "c2"], 0, 50000⟩)], []⟩ 70001).1.clients "c1" = none ∧
    Ev.send "c2" (ServerMsg.userLeft "r1" "u1" "n1" 70001) ∈
      (cleanupSweep
        ⟨[("c1", ⟨true, some "u1", some "n1", some "r1", 0, true⟩),
          ("c2", ⟨true, some "u2", some "n2", some "r1", 70000, true⟩)],
         [("r1", ⟨"r1", ["c1", "c2"], 0, 50000⟩)], []⟩ 70001).2 := by
  have h := claim5_sweep_evicts_silent_connection
    ⟨[("c1", ⟨true, some "u1", some "n1", some "r1", 0, true⟩),
      ("c2", ⟨true, some "u2", some "n2", some "r1", 70000, true⟩)],
     [("r1", ⟨"r1", ["c1", "c2"], 0, 50000⟩)], []⟩ 70001 "c1" "r1" "u1" "n1" "c2"
    ⟨true, some "u1", some "n1", some "r1", 0, true⟩
    ⟨true, some "u2", some "n2", some "r1", 70000, true⟩
    ⟨"r1", ["c1", "c2"], 0, 50000⟩
    (by decide) rfl (by decide) rfl (by decide) rfl rfl (by decide) (by decide)
    rfl (by decide) (by decide) (by decide) rfl rfl (by decide)
  exact ⟨h.1, h.2.2⟩

end Comm4.Server

namespace Comm4.Route

open Comm4

theorem rsend_flatMap (st : RouteState) (msg : RServerMsg) (l : List String)
    (hopen : ∀ x ∈ l, ∃ cx, mfind st.connections x = some cx ∧ cx.wsOpen = true) :
    (l.flatMap fun connId =>
      if (none : Option String) = some connId then []
      else
        match mfind st.connections connId with
        | some c => if c.wsOpen then [Ev.send connId msg] else []
        | none => []) = l.map (fun x => Ev.send x msg) := by
  induction l with
  | nil => simp
  | cons x xs ih =>
    obtain ⟨cx, hcx, hcxo⟩ := hopen x (by simp)
    simp only [List.flatMap_cons, List.map_cons]
    rw [ih (fun y hy => hopen y (by simp [hy]))]
    simp [hcx, hcxo]

/-- With every member registered and open, an exclusion-free route broadcast
reaches the full member list in order. -/
theorem route_broadcast_none {st : RouteState} {r : String} {connIds : List String}
    (msg : RServerMsg) (h : mfind st.roomConnections r = some connIds)
    (hopen : ∀ x ∈ connIds, ∃ cx, mfind st.connections x = some cx ∧ cx.wsOpen = true) :
    broadcastToRoom st r msg none = connIds.map (fun x => Ev.send x msg) := by
  unfold broadcastToRoom
  rw [h]
  exact rsend_flatMap st msg connIds hopen

/-- Counterexample to C2 as stated: whitespace-only content is dropped
silently — no error reply is sent to the sender (and nothing is broadcast);
the claim requires a direct error reply. -/
theorem claim2_counterexample :
    handleChatMessage ⟨[], [], [], []⟩ "a" ⟨true, "u1", "n1", "r1", 0⟩
        ⟨some " ", none, none⟩ 5 "id1" =
      (⟨[], [], [], []⟩, []) := by
  decide

/-- C2 (amended): in the route stub, a chat message whose raw content length
is at most 1000 and whose trimmed content is nonempty is accepted — stored
trimmed and broadcast to every open member of the room; raw content longer
than 1000 (even when the trimmed length is within bounds) is rejected with a
direct error reply and no broadcast or state change; empty or
whitespace-only content is rejected silently, with no reply, no broadcast
and no state change. -/
theorem claim2_validation_amended
    (st : RouteState) (cid : String) (conn : RConnection) (room : RRoom)
    (now : Nat) (freshId : String) (content : String) (pt : Option String)
    (ity : Option Bool) (connIds : List String)
    (hrm : mfind st.rooms conn.roomId = some room)
    (hact : room.isActive = true) (hexp : ¬ (now > room.expiresAt))
    (hconn : mfind st.roomConnections conn.roomId = some connIds)
    (hopen : ∀ x ∈ connIds, ∃ cx, mfind st.connections x = some cx ∧ cx.wsOpen = true) :
    (content ≠ "" → jsTrim content ≠ "" → ¬ (content.length > 1000) →
      (handleChatMessage st cid conn ⟨some content, pt, ity⟩ now freshId).2 =
        connIds.map (fun x => Ev.send x (RServerMsg.message
          ⟨freshId, jsTrim content, conn.userId, conn.username, now,
            pt.getD "text", room.encrypted⟩ now))) ∧
    (content ≠ "" → jsTrim content ≠ "" → content.length > 1000 →
      handleChatMessage st cid conn ⟨some content, pt, ity⟩ now freshId =
        (st, [Ev.send cid (RServerMsg.errorMsg "Сообщение слишком длинное")])) ∧
    (jsTrim content = "" →
      handleChatMessage st cid conn ⟨some content, pt, ity⟩ now freshId = (st, [])) := by
  refine ⟨?_, ?_, ?_⟩
  · intro h1 h2 h3
    unfold handleChatMessage
    simp only []
    rw [if_neg (by
      intro hor
      rcases hor with h | h
      · exact h1 h
      · exact h2 h)]
    rw [if_neg h3]
    simp only [hrm]
    rw [if_neg (by
      intro hor
      rcases hor with h | h
      · exact hexp h
      · rw [hact] at h
        cases h)]
    exact route_broadcast_none _ hconn hopen
  · intro h1 h2 h3
    unfold handleChatMessage
    simp only []
    rw [if_neg (by
      intro hor
      rcases hor with h | h
      · exact h1 h
      · exact h2 h)]
    rw [if_pos h3]
  · intro h2
    unfold handleChatMessage
    simp only []
    rw [if_pos (Or.inr h2)]

/-- Witness for the amended C2: "hi" from `a` in an active two-member room
is broadcast to both members with trimmed content. -/
theorem claim2_witness :
    ("hi" ≠ "" ∧ jsTrim "hi" ≠ "" ∧ ¬ (("hi").length > 1000)) ∧
    (handleChatMessage
        ⟨[("a", ⟨true, "ua", "na", "r1", 0⟩), ("b", ⟨true, "ub", "nb", "r1", 0⟩)],
         [("r1", ["a", "b"])], [], [("r1", ⟨"r1", [], 100, true, false⟩)]⟩
        "a" ⟨true, "ua", "na", "r1", 0⟩ ⟨some "hi", none, none⟩ 5 "id1").2 =
      [Ev.send "a" (RServerMsg.message ⟨"id1", "hi", "ua", "na", 5, "text", false⟩ 5),
       Ev.send "b" (RServerMsg.message ⟨"id1", "hi", "ua", "na", 5, "text", false⟩ 5)] := by
  have h := claim2_validation_amended
    ⟨[("a", ⟨true, "ua", "na", "r1", 0⟩), ("b", ⟨true, "ub", "nb", "r1", 0⟩)],
     [("r1", ["a", "b"])], [], [("r1", ⟨"r1", [], 100, true, false⟩)]⟩
    "a" ⟨true, "ua", "na", "r1", 0⟩ ⟨"r1", [], 100, true, false⟩ 5 "id1" "hi" none none
    ["a", "b"] rfl rfl (by decide) rfl
    (by
      intro x hx
      simp only [List.mem_cons, List.not_mem_nil, or_false] at hx
      rcases hx with hx | hx
      · subst hx
        exact ⟨⟨true, "ua", "na", "r1", 0⟩, rfl, rfl⟩
      · subst hx
        exact ⟨⟨true, "ub", "nb", "r1", 0⟩, rfl, rfl⟩)
  refine ⟨⟨by decide, by decide, by decide⟩, ?_⟩
  rw [h.1 (by decide) (by decide) (by decide)]
  rfl

/-- C10: an accepted chat message is appended to the room's stored message
list, which is then truncated to its most recent 1000 entries: the stored
list is always a tail segment of old-messages ++ [new], and its length
never exceeds 1000 — older messages are silently dropped. -/
theorem claim10_history_truncation
    (st : RouteState) (cid : String) (conn : RConnection) (room : RRoom)
    (now : Nat) (freshId : String) (content : String) (pt : Option String)
    (ity : Option Bool)
    (hrm : mfind st.rooms conn.roomId = some room)
    (hact : room.isActive = true) (hexp : ¬ (now > room.expiresAt))
    (h1 : content ≠ "") (h2 : jsTrim content ≠ "") (h3 : ¬ (content.length > 1000)) :
    ∃ msgs',
      mfind (handleChatMessage st cid conn ⟨some content, pt, ity⟩ now freshId).1.rooms
          conn.roomId = some ({ room with messages := msgs' }) ∧
      msgs'.length ≤ 1000 ∧
      ∃ kd, msgs' = (room.messages ++
        [({ id := freshId, content := jsTrim content, senderId := conn.userId,
            senderName := conn.username, timestamp := now, mtype := pt.getD "text",
            encrypted := room.encrypted } : RMessage)]).drop kd := by
  have hstate : (handleChatMessage st cid conn ⟨some content, pt, ity⟩ now freshId).1 =
      { st with rooms := mset st.rooms conn.roomId ({ room with messages := (if (room.messages ++ [({ id := freshId, content := jsTrim content, senderId := conn.userId, senderName := conn.username, timestamp := now, mtype := pt.getD "text", encrypted := room.encrypted } : RMessage)]).length > 1000 then (room.messages ++ [({ id := freshId, content := jsTrim content, senderId := conn.userId, senderName := conn.username, timestamp := now, mtype := pt.getD "text", encrypted := room.encrypted } : RMessage)]).drop ((room.messages ++ [({ id := freshId, content := jsTrim content, senderId := conn.userId, senderName := conn.username, timestamp := now, mtype := pt.getD "text", encrypted := room.encrypted } : RMessage)]).length - 1000) else room.messages ++ [({ id := freshId, content := jsTrim content, senderId := conn.userId, senderName := conn.username, timestamp := now, mtype := pt.getD "text", encrypted := room.encrypted } : RMessage)]) }) } := by
    unfold handleChatMessage
    simp only []
    rw [if_neg (by
      intro hor
      rcases hor with h | h
      · exact h1 h
      · exact h2 h)]
    rw [if_neg h3]
    simp only [hrm]
    rw [if_neg (by
      intro hor
      rcases hor with h | h
      · exact hexp h
      · rw [hact] at h
        cases h)]
  refine ⟨_, by rw [hstate]; exact mfind_mset_self _ _ _, ?_, ?_⟩
  · by_cases hover : (room.messages ++
        [({ id := freshId, content := jsTrim content, senderId := conn.userId,
            senderName := conn.username, timestamp := now, mtype := pt.getD "text",
            encrypted := room.encrypted } : RMessage)]).length > 1000
    · rw [if_pos hover, List.length_drop]
      omega
    · rw [if_neg hover]
      omega
  · by_cases hover : (room.messages ++
        [({ id := freshId, content := jsTrim content, senderId := conn.userId,
            senderName := conn.username, timestamp := now, mtype := pt.getD "text",
            encrypted := room.encrypted } : RMessage)]).length > 1000
    · rw [if_pos hover]
      exact ⟨_, rfl⟩
    · rw [if_neg hover]
      exact ⟨0, (List.drop_zero _).symm⟩

/-- Witness for C10: appending to an empty history stores the single
trimmed message. -/
theorem claim10_witness :
    ∃ msgs',
      mfind (handleChatMessage
          ⟨[("a", ⟨true, "ua", "na", "r1", 0⟩)], [("r1", ["a"])], [],
           [("r1", ⟨"r1", [], 100, true, false⟩)]⟩
          "a" ⟨true, "ua", "na", "r1", 0⟩ ⟨some "hi", none, none⟩ 5 "id1").1.rooms "r1" =
        some ⟨"r1", msgs', 100, true, false⟩ ∧
      msgs'.length ≤ 1000 ∧
      ∃ kd, msgs' = ([(⟨"id1", "hi", "ua", "na", 5, "text", false⟩ : RMessage)]).drop kd :=
  claim10_history_truncation
    ⟨[("a", ⟨true, "ua", "na", "r1", 0⟩)], [("r1", ["a"])], [],
     [("r1", ⟨"r1", [], 100, true, false⟩)]⟩
    "a" ⟨true, "ua", "na", "r1", 0⟩ ⟨"r1", [], 100, true, false⟩ 5 "id1" "hi" none none
    rfl rfl (by decide) (by decide) (by decide) (by decide)

/-- Counterexample to C3 as stated: two `typing:true` frames from the same
user 1000 ms apart — well inside the 3000 ms auto-stop window — produce TWO
`typing:true` deliveries to fellow member `b`, not exactly one: the route
stub re-broadcasts on every refresh (and, because the exclusion argument
`connection.id` is undefined, even the sender receives them). -/
theorem claim3_counterexample :
    (1000 < 0 + 3000) ∧
    ((handleTyping ⟨[("a", ⟨true, "ua", "na", "r1", 0⟩), ("b", ⟨true, "ub", "nb", "r1", 0⟩)],
          [("r1", ["a", "b"])], [], []⟩
        ⟨true, "ua", "na", "r1", 0⟩ ⟨none, none, some true⟩ 0).2 ++
      (handleTyping
        (handleTyping ⟨[("a", ⟨true, "ua", "na", "r1", 0⟩), ("b", ⟨true, "ub", "nb", "r1", 0⟩)],
            [("r1", ["a", "b"])], [], []⟩
          ⟨true, "ua", "na", "r1", 0⟩ ⟨none, none, some true⟩ 0).1
        ⟨true, "ua", "na", "r1", 0⟩ ⟨none, none, some true⟩ 1000).2).count
      (Ev.send "b" (RServerMsg.typing "ua" "na" true)) = 2 := by
  constructor
  · decide
  · decide

/-- C3 (amended): every `typing:true` frame — first start or refresh — is
re-broadcast to the room's open members (nobody is excluded, the sender
included, since the exclusion argument is the undefined `connection.id`)
and resets the auto-stop deadline to 3000 ms from now; when the window
elapses, the single pending timer fires exactly one `typing:false`
broadcast and removes the indicator, after which a second fire is a no-op. -/
theorem claim3_typing_amended
    (st : RouteState) (conn : RConnection) (payload : RPayload) (now : Nat)
    (connIds : List String)
    (hconn : mfind st.roomConnections conn.roomId = some connIds)
    (hopen : ∀ x ∈ connIds, ∃ cx, mfind st.connections x = some cx ∧ cx.wsOpen = true) :
    (payload.isTyping = some true →
      (handleTyping st conn payload now).2 =
        connIds.map (fun x => Ev.send x (RServerMsg.typing conn.userId conn.username true)) ∧
      mfind (handleTyping st conn payload now).1.userTyping
          (conn.roomId ++ ":" ++ conn.userId) =
        some ⟨conn.userId, conn.username, conn.roomId, now + 3000⟩) ∧
    (∀ entry : TypingEntry,
      mfind st.userTyping (conn.roomId ++ ":" ++ conn.userId) = some entry →
      entry.roomId = conn.roomId →
      (fireTypingTimeout st (conn.roomId ++ ":" ++ conn.userId)).2 =
        connIds.map (fun x => Ev.send x (RServerMsg.typing entry.userId entry.username false)) ∧
      mfind (fireTypingTimeout st (conn.roomId ++ ":" ++ conn.userId)).1.userTyping
          (conn.roomId ++ ":" ++ conn.userId) = none ∧
      fireTypingTimeout (fireTypingTimeout st (conn.roomId ++ ":" ++ conn.userId)).1
          (conn.roomId ++ ":" ++ conn.userId) =
        ((fireTypingTimeout st (conn.roomId ++ ":" ++ conn.userId)).1, [])) := by
  constructor
  · intro hty
    unfold handleTyping
    rw [hty]
    simp only [Option.getD_some, if_pos rfl]
    constructor
    · exact route_broadcast_none _ hconn hopen
    · exact mfind_mset_self _ _ _
  · intro entry hent hre
    unfold fireTypingTimeout
    simp only [hent]
    refine ⟨?_, ?_, ?_⟩
    · rw [hre]
      exact route_broadcast_none _ hconn hopen
    · exact mfind_mdel_self _ _
    · have hnone : mfind (mdel st.userTyping (conn.roomId ++ ":" ++ conn.userId))
          (conn.roomId ++ ":" ++ conn.userId) = none := mfind_mdel_self _ _
      simp only [hnone]

/-- Witness for the amended C3: a `typing:true` frame reaches both members
(the sender included), the pending timer then fires exactly one
`typing:false` broadcast, and a repeat fire does nothing. -/
theorem claim3_witness :
    (handleTyping ⟨[("a", ⟨true, "ua", "na", "r1", 0⟩), ("b", ⟨true, "ub", "nb", "r1", 0⟩)],
        [("r1", ["a", "b"])], [], []⟩
      ⟨true, "ua", "na", "r1", 0⟩ ⟨none, none, some true⟩ 0).2 =
      [Ev.send "a" (RServerMsg.typing "ua" "na" true),
       Ev.send "b" (RServerMsg.typing "ua" "na" true)] ∧
    (fireTypingTimeout
      (handleTyping ⟨[("a", ⟨true, "ua", "na", "r1", 0⟩), ("b", ⟨true, "ub", "nb", "r1", 0⟩)],
          [("r1", ["a", "b"])], [], []⟩
        ⟨true, "ua", "na", "r1", 0⟩ ⟨none, none, some true⟩ 0).1 "r1:ua").2 =
      [Ev.send "a" (RServerMsg.typing "ua" "na" false),
       Ev.send "b" (RServerMsg.typing "ua" "na" false)] ∧
    fireTypingTimeout
        (fireTypingTimeout
          (handleTyping ⟨[("a", ⟨true, "ua", "na", "r1", 0⟩), ("b", ⟨true, "ub", "nb", "r1", 0⟩)],
              [("r1", ["a", "b"])], [], []⟩
            ⟨true, "ua", "na", "r1", 0⟩ ⟨none, none, some true⟩ 0).1 "r1:ua").1 "r1:ua" =
      ((fireTypingTimeout
          (handleTyping ⟨[("a", ⟨true, "ua", "na", "r1", 0⟩), ("b", ⟨true, "ub", "nb", "r1", 0⟩)],
              [("r1", ["a", "b"])], [], []⟩
            ⟨true, "ua", "na", "r1", 0⟩ ⟨none, none, some true⟩ 0).1 "r1:ua").1, []) := by
  have hop : ∀ x ∈ ["a", "b"],
      ∃ cx, mfind (⟨[("a", ⟨true, "ua", "na", "r1", 0⟩), ("b", ⟨true, "ub", "nb", "r1", 0⟩)],
        [("r1", ["a", "b"])], [], []⟩ : RouteState).connections x = some cx ∧
        cx.wsOpen = true := by
    intro x hx
    simp only [List.mem_cons, List.not_mem_nil, or_false] at hx
    rcases hx with hx | hx
    · subst hx
      exact ⟨⟨true, "ua", "na", "r1", 0⟩, rfl, rfl⟩
    · subst hx
      exact ⟨⟨true, "ub", "nb", "r1", 0⟩, rfl, rfl⟩
  have h1 := claim3_typing_amended
    ⟨[("a", ⟨true, "ua", "na", "r1", 0⟩), ("b", ⟨true, "ub", "nb", "r1", 0⟩)],
     [("r1", ["a", "b"])], [], []⟩
    ⟨true, "ua", "na", "r1", 0⟩ ⟨none, none, some true⟩ 0 ["a", "b"] rfl hop
  have hop2 : ∀ x ∈ ["a", "b"],
      ∃ cx, mfind (handleTyping
        ⟨[("a", ⟨true, "ua", "na", "r1", 0⟩), ("b", ⟨true, "ub", "nb", "r1", 0⟩)],
         [("r1", ["a", "b"])], [], []⟩
        ⟨true, "ua", "na", "r1", 0⟩ ⟨none, none, some true⟩ 0).1.connections x = some cx ∧
        cx.wsOpen = true := by
    intro x hx
    simp only [List.mem_cons, List.not_mem_nil, or_false] at hx
    rcases hx with hx | hx
    · subst hx
      exact ⟨⟨true, "ua", "na", "r1", 0⟩, rfl, rfl⟩
    · subst hx
      exact ⟨⟨true, "ub", "nb", "r1", 0⟩, rfl, rfl⟩
  have h2 := claim3_typing_amended
    (handleTyping ⟨[("a", ⟨true, "ua", "na", "r1", 0⟩), ("b", ⟨true, "ub", "nb", "r1", 0⟩)],
        [("r1", ["a", "b"])], [], []⟩
      ⟨true, "ua", "na", "r1", 0⟩ ⟨none, none, some true⟩ 0).1
    ⟨true, "ua", "na", "r1", 0⟩ ⟨none, none, some true⟩ 0 ["a", "b"] rfl hop2
  have h2e := h2.2 ⟨"ua", "na", "r1", 0 + 3000⟩ rfl rfl
  exact ⟨(h1.1 rfl).1, h2e.1, h2e.2.2⟩

end Comm4.Route
